import Mathlib

/-!
Verification development for the tiered block-storage core of a NOVA-based
file system (files `fs/nova/bdev.c`, `fs/nova/migration.c`, `fs/nova/profile.c`).

The C sources are shallowly embedded: per-shard free lists become records
holding an ordered list of range nodes (the in-order traversal of the
red-black tree), pointer identity of tree nodes is modelled by a numeric
node id, machine integers become `Nat`/`Int` with explicit wrap-around where
the C code can underflow, and fallible device or log operations are driven
by explicit oracle fields in the state record.  Functions missing from the
provided sources (declared in headers only) are modelled from the
specification and marked as such in their doc comments.
-/

namespace Nova

/-- Error numbers used by the C sources (positive magnitudes). -/
def EINVAL : Int := 22

def eio : Int := 5

def ENOMEM : Int := 12

def ENOSPC : Int := 28

/-- `PAGE_SHIFT`: block/page size is `1 <<< 12` bytes. -/
def PAGE_SHIFT : Nat := 12

/-- Tier number of the PMEM tier. -/
def TIER_PMEM : Nat := 0

/-- First block-device tier. -/
def TIER_BDEV_LOW : Nat := 1

/-- Last block-device tier (two block-device tiers in the configuration
modelled here, matching `do_migrate_a_file_rotate`). -/
def TIER_BDEV_HIGH : Nat := 2

/-- `MIGRATION_DOWNWARD_PERC` capacity tunable (default 75). -/
def MIGRATION_DOWNWARD_PERC : Nat := 75

/-- Sentinel for `ANY_CPU` (the current processor is used instead). -/
def ANY_CPU : Int := -1

/-- `is_tier_pmem` from the sources' tier encoding. -/
def is_tier_pmem (tier : Nat) : Bool := tier == TIER_PMEM

/-- `is_tier_bdev`: block-device tiers occupy `[TIER_BDEV_LOW, TIER_BDEV_HIGH]`. -/
def is_tier_bdev (tier : Nat) : Bool :=
  TIER_BDEV_LOW ≤ tier && tier ≤ TIER_BDEV_HIGH

/-- 64-bit wrap-around subtraction `a - b` of unsigned C arithmetic. -/
def wrapSub (a b : Nat) : Nat := (a + (2 ^ 64 - b % 2 ^ 64)) % 2 ^ 64

/-- A free-range node of the allocator's red-black tree (`nova_range_node`).
`id` models the node's identity (its address in C); `csum` is the stored
integrity checksum over `(range_low, range_high)`. -/
structure RNode where
  id : Nat
  range_low : Nat
  range_high : Nat
  csum : Nat
deriving DecidableEq, Repr

/-- Modelled from the spec: the integrity checksum over `(low, high)` carried
by every range node (`nova_update_range_node_checksum` is declared outside the
provided sources). Any injective-enough function of the two bounds serves. -/
def nova_csum (low high : Nat) : Nat := 7 + low * 31 + high * 131

/-- `nova_update_range_node_checksum`. -/
def nova_update_range_node_checksum (n : RNode) : RNode :=
  { n with csum := nova_csum n.range_low n.range_high }

/-- `nova_range_node_checksum_ok`. -/
def nova_range_node_checksum_ok (n : RNode) : Bool :=
  n.csum == nova_csum n.range_low n.range_high

/-- One per-(tier, CPU) shard free list (`struct bdev_free_list`).  The
red-black tree is embedded as its in-order node list `tree`; the cached
`first_node`/`last_node` pointers are stored as node ids. -/
structure BdevFreeList where
  tier : Nat
  cpu : Nat
  block_start : Nat
  block_end : Nat
  num_total_blocks : Nat
  num_free_blocks : Nat
  num_blocknode : Nat
  first_node : Option Nat
  last_node : Option Nat
  tree : List RNode
deriving DecidableEq, Repr

/-- A defaulted shard used for out-of-range array accesses. -/
def emptyBfl : BdevFreeList :=
  { tier := 0, cpu := 0, block_start := 0, block_end := 0, num_total_blocks := 0,
    num_free_blocks := 0, num_blocknode := 0, first_node := none, last_node := none,
    tree := [] }

/-- `enum nova_alloc_direction`. -/
inductive AllocDirection where
  | head
  | tail
deriving DecidableEq, Repr

/-- Outcome of the tree walk inside `nova_alloc_blocks_in_bdev_free_list`:
the start block written through `*new_blocknr`, the mutated walked segment of
the tree, the updated cached extreme-node ids and whether a node was erased. -/
structure AllocFound where
  blocknr : Nat
  tree : List RNode
  first : Option Nat
  last : Option Nat
  erased : Bool
deriving DecidableEq, Repr

/-- The FROM_HEAD walk of `nova_alloc_blocks_in_bdev_free_list` over the
in-order node list: skip corrupt nodes and nodes smaller than the request;
take the whole node when the sizes match (fixing the cached extreme nodes as
the C code does via `rb_next`/`rb_prev`), otherwise slice the node's head.
`prev` is the id of the in-order predecessor of the current node. -/
def allocWalkHead (num_blocks : Nat) (fid lid : Option Nat) :
    Option Nat → List RNode → Option AllocFound
  | _, [] => none
  | prev, curr :: rest =>
    if nova_range_node_checksum_ok curr = false then
      (allocWalkHead num_blocks fid lid (some curr.id) rest).map
        (fun o => { o with tree := curr :: o.tree })
    else
      let curr_blocks := curr.range_high - curr.range_low + 1
      if curr_blocks ≤ num_blocks then
        if curr_blocks < num_blocks then
          (allocWalkHead num_blocks fid lid (some curr.id) rest).map
            (fun o => { o with tree := curr :: o.tree })
        else
          some { blocknr := curr.range_low
                 tree := rest
                 first := if fid = some curr.id then rest.head?.map (fun n => n.id) else fid
                 last := if lid = some curr.id then prev else lid
                 erased := true }
      else
        some { blocknr := curr.range_low
               tree := nova_update_range_node_checksum
                         { curr with range_low := curr.range_low + num_blocks } :: rest
               first := fid
               last := lid
               erased := false }

/-- The FROM_TAIL walk, over the reversed in-order list starting at the
cached last node. `nxt` is the id of the in-order successor of the current
node; the returned tree segment is still reversed. -/
def allocWalkTail (num_blocks : Nat) (fid lid : Option Nat) :
    Option Nat → List RNode → Option AllocFound
  | _, [] => none
  | nxt, curr :: rest =>
    if nova_range_node_checksum_ok curr = false then
      (allocWalkTail num_blocks fid lid (some curr.id) rest).map
        (fun o => { o with tree := curr :: o.tree })
    else
      let curr_blocks := curr.range_high - curr.range_low + 1
      if curr_blocks ≤ num_blocks then
        if curr_blocks < num_blocks then
          (allocWalkTail num_blocks fid lid (some curr.id) rest).map
            (fun o => { o with tree := curr :: o.tree })
        else
          some { blocknr := curr.range_low
                 tree := rest
                 first := if fid = some curr.id then nxt else fid
                 last := if lid = some curr.id then rest.head?.map (fun n => n.id) else lid
                 erased := true }
      else
        some { blocknr := curr.range_high + 1 - num_blocks
               tree := nova_update_range_node_checksum
                         { curr with range_high := curr.range_high - num_blocks } :: rest
               first := fid
               last := lid
               erased := false }

/-- Split the in-order list at the node carrying id `i`: the part before it
and the part starting with it. -/
def splitAtId (l : List RNode) (i : Option Nat) : List RNode × List RNode :=
  match i with
  | none => (l, [])
  | some i =>
    match l.findIdx? (fun nd => nd.id == i) with
    | some k => (l.take k, l.drop k)
    | none => (l, [])

/-- `nova_alloc_blocks_in_bdev_free_list` (bdev.c:336).  Returns the C return
value, the value left in `*new_blocknr` (0 when never written), and the
mutated shard. -/
def nova_alloc_blocks_in_bdev_free_list (bfl : BdevFreeList) (num_blocks : Nat)
    (from_tail : AllocDirection) : Int × Nat × BdevFreeList :=
  if bfl.first_node = none ∨ bfl.num_free_blocks = 0 then (-ENOSPC, 0, bfl)
  else
    let found : Option AllocFound :=
      match from_tail with
      | .head =>
        let pre := (splitAtId bfl.tree bfl.first_node).1
        let suf := (splitAtId bfl.tree bfl.first_node).2
        (allocWalkHead num_blocks bfl.first_node bfl.last_node
            (pre.getLast?.map (fun n => n.id)) suf).map
          (fun o => { o with tree := pre ++ o.tree })
      | .tail =>
        match bfl.last_node with
        | none => none
        | some lidv =>
          match bfl.tree.findIdx? (fun nd => nd.id == lidv) with
          | none => none
          | some k =>
            let walkl := (bfl.tree.take (k + 1)).reverse
            let rest := bfl.tree.drop (k + 1)
            (allocWalkTail num_blocks bfl.first_node bfl.last_node
                (rest.head?.map (fun n => n.id)) walkl).map
              (fun o => { o with tree := o.tree.reverse ++ rest })
    match found with
    | none => (-ENOSPC, 0, bfl)
    | some o =>
      let bfl' := { bfl with
        tree := o.tree
        first_node := o.first
        last_node := o.last
        num_blocknode := if o.erased then bfl.num_blocknode - 1 else bfl.num_blocknode }
      if bfl'.num_free_blocks < num_blocks then (-ENOSPC, o.blocknr, bfl')
      else ((num_blocks : Int), o.blocknr,
            { bfl' with num_free_blocks := bfl'.num_free_blocks - num_blocks })

/-- `not_enough_blocks_bfl` (bdev.c:434). -/
def not_enough_blocks_bfl (bfl : BdevFreeList) (num_blocks : Nat) : Bool :=
  bfl.num_free_blocks < num_blocks || bfl.first_node = none || bfl.last_node = none

/-- Per-tier block-device description (`struct bdev_info`), the fields the
core reads. -/
structure BdevInfo where
  capacity_page : Nat
  opt_size_bit : Nat
deriving DecidableEq, Repr

/-- The per-superblock state (`struct nova_sb_info`) restricted to what the
embedded functions touch.  `proc_id` models `smp_processor_id()`;
`inode_maps` holds, per CPU shard, the ordered range nodes of the inode
range tree as `(range_low, range_high)` pairs; `first_entry_tier` is the
oracle combining `nova_iget` + `nova_get_write_entry(-,0)` +
`get_entry_tier`: it maps an inode number to the tier of its first write
entry, `none` when the inode or the entry cannot be obtained. -/
structure Sbi where
  cpus : Nat
  proc_id : Nat
  num_blocks : Nat
  next_node_id : Nat
  bdev_list : List BdevInfo
  bdev_free_list : List BdevFreeList
  pmem_free_list : List BdevFreeList
  inode_maps : List (List (Nat × Nat))
  first_entry_tier : List (Nat × Nat)
deriving DecidableEq, Repr

/-- `nova_get_bdev_free_list(sbi, tier, cpu)`: flat index
`(tier - TIER_BDEV_LOW) * cpus + cpu` (cf. `nova_get_bdev_block_start`). -/
def nova_get_bdev_free_list (sbi : Sbi) (tier cpu : Nat) : BdevFreeList :=
  sbi.bdev_free_list.getD ((tier - TIER_BDEV_LOW) * sbi.cpus + cpu) emptyBfl

/-- `nova_get_bdev_free_list_flat(sbi, i)`. -/
def nova_get_bdev_free_list_flat (sbi : Sbi) (i : Nat) : BdevFreeList :=
  sbi.bdev_free_list.getD i emptyBfl

/-- Store shard `i` of the flat bdev free-list array. -/
def setBdevFreeList (sbi : Sbi) (i : Nat) (bfl : BdevFreeList) : Sbi :=
  { sbi with bdev_free_list := sbi.bdev_free_list.set i bfl }

/-- Modelled from the spec: `nova_tier_start_block` (declared outside the
provided sources) — tier windows are contiguous: PMEM owns `[0, num_blocks)`,
block-device tier `t ≥ 1` starts after PMEM plus the capacities of all lower
block-device tiers (this matches `nova_init_bdev_free_list`). -/
def nova_tier_start_block (sbi : Sbi) (tier : Nat) : Nat :=
  if tier = 0 then 0
  else sbi.num_blocks + (((sbi.bdev_list.take (tier - 1)).map
        (fun b => b.capacity_page)).sum)

/-- Modelled from the spec: `nova_tier_end_block`, last block of a tier's
window. -/
def nova_tier_end_block (sbi : Sbi) (tier : Nat) : Nat :=
  if tier = 0 then sbi.num_blocks - 1
  else nova_tier_start_block sbi tier +
       ((sbi.bdev_list.get? (tier - 1)).map (fun b => b.capacity_page)).getD 0 - 1

/-- `nova_get_candidate_bdev_free_list` (bdev.c:443): the CPU whose shard of
`tier` has the most free blocks (ties to the lowest index, 0 when all empty). -/
def nova_get_candidate_bdev_free_list (sbi : Sbi) (tier : Nat) : Nat :=
  (List.range sbi.cpus).foldl
    (fun acc i =>
      let bfl := nova_get_bdev_free_list sbi tier i
      if acc.2 < bfl.num_free_blocks then (i, bfl.num_free_blocks) else acc)
    (0, 0) |>.1

/-- `nova_new_blocks_from_bdev` (bdev.c:468).  `blocknr_in` is the value the
caller's `*blocknr` holds before the call (the C code writes it only on
success). Note the shard is always taken from tier `TIER_BDEV_LOW`, and
`num_blocknode` is incremented after every successful allocation. -/
def nova_new_blocks_from_bdev (sbi : Sbi) (tier : Nat) (blocknr_in : Nat)
    (num_blocks : Nat) (cpuid : Int) (from_tail : AllocDirection) : Int × Nat × Sbi :=
  if num_blocks = 0 then (-EINVAL, blocknr_in, sbi)
  else
    let c0 : Nat := if cpuid = ANY_CPU then sbi.proc_id else cpuid.toNat
    let c : Nat :=
      if not_enough_blocks_bfl (nova_get_bdev_free_list sbi TIER_BDEV_LOW c0) num_blocks then
        let c1 := nova_get_candidate_bdev_free_list sbi tier
        if not_enough_blocks_bfl (nova_get_bdev_free_list sbi TIER_BDEV_LOW c1) num_blocks then
          nova_get_candidate_bdev_free_list sbi tier
        else c1
      else c0
    let bfl := nova_get_bdev_free_list sbi TIER_BDEV_LOW c
    let r := nova_alloc_blocks_in_bdev_free_list bfl num_blocks from_tail
    let ret_blocks := r.1
    let new_blocknr := r.2.1
    let bfl1 := r.2.2
    let bfl2 := if 0 < ret_blocks then { bfl1 with num_blocknode := bfl1.num_blocknode + 1 }
                else bfl1
    let sbi' := setBdevFreeList sbi ((TIER_BDEV_LOW - TIER_BDEV_LOW) * sbi.cpus + c) bfl2
    if ret_blocks ≤ 0 ∨ new_blocknr = 0 then (-ENOSPC, blocknr_in, sbi')
    else (ret_blocks, new_blocknr, sbi')

/-- `nova_bdev_alloc_blocks` (bdev.c:709): always allocates from
`TIER_BDEV_LOW`, FROM_HEAD, and subtracts the PMEM size from `*blocknr`
(unsigned wrap-around). -/
def nova_bdev_alloc_blocks (sbi : Sbi) (tier : Nat) (cpuid : Int) (blocknr_in : Nat)
    (num_blocks : Nat) : Int × Nat × Sbi :=
  let c : Int := if cpuid = ANY_CPU then (sbi.proc_id : Int) else cpuid
  let r := nova_new_blocks_from_bdev sbi TIER_BDEV_LOW blocknr_in num_blocks c .head
  (r.1, wrapSub r.2.1 sbi.num_blocks, r.2.2)

/-- Modelled from the spec: `nova_alloc_blocks_in_free_list` (the PMEM shard
allocator, not among the provided sources) — the §4.1 allocation walk applied
to the per-CPU PMEM shard, FROM_HEAD, writing `*blocknr` on success. -/
def nova_alloc_blocks_in_free_list (sbi : Sbi) (cpuid : Nat) (blocknr_in : Nat)
    (num_blocks : Nat) : Int × Nat × Sbi :=
  let fl := sbi.pmem_free_list.getD cpuid emptyBfl
  let r := nova_alloc_blocks_in_bdev_free_list fl num_blocks .head
  (r.1, if 0 < r.1 then r.2.1 else blocknr_in,
   { sbi with pmem_free_list := sbi.pmem_free_list.set cpuid r.2.2 })

/-- `nova_alloc_block_tier` (bdev.c:726): route PMEM requests to the PMEM
free list of `cpuid` and block-device requests to `nova_bdev_alloc_blocks`. -/
def nova_alloc_block_tier (sbi : Sbi) (tier : Nat) (cpuid : Int) (blocknr_in : Nat)
    (num_blocks : Nat) : Int × Nat × Sbi :=
  let c : Int := if cpuid = ANY_CPU then (sbi.proc_id : Int) else cpuid
  if is_tier_pmem tier then nova_alloc_blocks_in_free_list sbi c.toNat blocknr_in num_blocks
  else if is_tier_bdev tier then nova_bdev_alloc_blocks sbi tier c blocknr_in num_blocks
  else (-1, blocknr_in, sbi)

/-- `get_bfl_index` (bdev.c:553): the flat index of the shard whose window
contains `blocknr` (`none` for the C return value `-1`). -/
def get_bfl_index (sbi : Sbi) (blocknr : Nat) : Option Nat :=
  (List.range (TIER_BDEV_HIGH * sbi.cpus)).find? (fun i =>
    let bfl := nova_get_bdev_free_list_flat sbi i
    bfl.block_start ≤ blocknr && blocknr ≤ bfl.block_end)

/-- `get_tier` (bdev.c:564): the tier whose window contains `blocknr`. -/
def get_tier (sbi : Sbi) (blocknr : Nat) : Option Nat :=
  (List.range (TIER_BDEV_HIGH + 1)).find? (fun i =>
    nova_tier_start_block sbi i ≤ blocknr && blocknr ≤ nova_tier_end_block sbi i)

/-- `get_tier_range` (bdev.c:576): the tier whose window contains the whole
run `[blocknr, blocknr + num_blocks)`. -/
def get_tier_range (sbi : Sbi) (blocknr num_blocks : Nat) : Option Nat :=
  (List.range (TIER_BDEV_HIGH + 1)).find? (fun i =>
    nova_tier_start_block sbi i ≤ blocknr &&
    blocknr + num_blocks - 1 ≤ nova_tier_end_block sbi i)

/-- Modelled from the spec: `nova_find_free_slot` (declared outside the
provided sources) — the nearest-slot lookup that locates the predecessor and
successor of the range being freed, failing (`-EINVAL`) when the range
conflicts with an existing node.  On a tree whose in-order list is sorted and
separated it returns the nodes entirely below `lo` and the nodes entirely
above `hi`; `prev`/`next` of the C interface are the last of the first part
and the head of the second. -/
def nova_find_free_slot (tree : List RNode) (lo hi : Nat) :
    Option (List RNode × List RNode) :=
  let left := tree.takeWhile (fun nd => nd.range_high < lo)
  let right := tree.dropWhile (fun nd => nd.range_high < lo)
  match right.head? with
  | some nxt => if nxt.range_low ≤ hi then none else some (left, right)
  | none => some (left, right)

/-- The coalescing core of `nova_free_blocks_from_bdev` (bdev.c:641-692),
run under the shard lock once the owning shard has been located and the
window check passed: locate predecessor/successor, then fill the hole,
extend the predecessor, extend the successor, or insert a fresh node (with
id `nid`), updating the counters and cached extreme nodes. -/
def nova_free_blocks_core (bfl : BdevFreeList) (nid block_low block_high num_blocks : Nat) :
    Int × BdevFreeList :=
  match nova_find_free_slot bfl.tree block_low block_high with
  | none => (-EINVAL, bfl)
  | some (left, right) =>
    match left.getLast?, right.head? with
    | some p, some s =>
      if block_low = p.range_high + 1 ∧ block_high + 1 = s.range_low then
        let p' := nova_update_range_node_checksum { p with range_high := s.range_high }
        (0, { bfl with
          tree := left.dropLast ++ p' :: right.tail
          num_blocknode := bfl.num_blocknode - 1
          last_node := if bfl.last_node = some s.id then some p.id else bfl.last_node
          num_free_blocks := bfl.num_free_blocks + num_blocks })
      else if block_low = p.range_high + 1 then
        let p' := nova_update_range_node_checksum
                    { p with range_high := p.range_high + num_blocks }
        (0, { bfl with
          tree := left.dropLast ++ p' :: right
          num_free_blocks := bfl.num_free_blocks + num_blocks })
      else if block_high + 1 = s.range_low then
        let s' := nova_update_range_node_checksum
                    { s with range_low := s.range_low - num_blocks }
        (0, { bfl with
          tree := left ++ s' :: right.tail
          num_free_blocks := bfl.num_free_blocks + num_blocks })
      else
        let nn := nova_update_range_node_checksum
                    { id := nid, range_low := block_low, range_high := block_high, csum := 0 }
        (0, { bfl with
          tree := left ++ nn :: right
          num_blocknode := bfl.num_blocknode + 1
          num_free_blocks := bfl.num_free_blocks + num_blocks })
    | some p, none =>
      if block_low = p.range_high + 1 then
        let p' := nova_update_range_node_checksum
                    { p with range_high := p.range_high + num_blocks }
        (0, { bfl with
          tree := left.dropLast ++ p' :: right
          num_free_blocks := bfl.num_free_blocks + num_blocks })
      else
        let nn := nova_update_range_node_checksum
                    { id := nid, range_low := block_low, range_high := block_high, csum := 0 }
        (0, { bfl with
          tree := left ++ nn :: right
          num_blocknode := bfl.num_blocknode + 1
          last_node := some nid
          num_free_blocks := bfl.num_free_blocks + num_blocks })
    | none, some s =>
      if block_high + 1 = s.range_low then
        let s' := nova_update_range_node_checksum
                    { s with range_low := s.range_low - num_blocks }
        (0, { bfl with
          tree := left ++ s' :: right.tail
          num_free_blocks := bfl.num_free_blocks + num_blocks })
      else
        let nn := nova_update_range_node_checksum
                    { id := nid, range_low := block_low, range_high := block_high, csum := 0 }
        (0, { bfl with
          tree := left ++ nn :: right
          num_blocknode := bfl.num_blocknode + 1
          first_node := some nid
          num_free_blocks := bfl.num_free_blocks + num_blocks })
    | none, none =>
      let nn := nova_update_range_node_checksum
                  { id := nid, range_low := block_low, range_high := block_high, csum := 0 }
      (0, { bfl with
        tree := left ++ nn :: right
        num_blocknode := bfl.num_blocknode + 1
        first_node := some nid
        last_node := some nid
        num_free_blocks := bfl.num_free_blocks + num_blocks })

/-- `nova_free_blocks_from_bdev` (bdev.c:589): return a block run to its
owning shard, coalescing with the adjacent predecessor, successor, both, or
neither.  The pre-allocated node takes the fresh id `sbi.next_node_id`
(`nova_insert_blocktree` is modelled from the spec as the sorted insertion
between predecessor and successor). -/
def nova_free_blocks_from_bdev (sbi : Sbi) (blocknr num_blocks : Nat) : Int × Sbi :=
  if num_blocks = 0 then (-EINVAL, sbi)
  else
    let nid := sbi.next_node_id
    let sbi := { sbi with next_node_id := nid + 1 }
    match get_bfl_index sbi blocknr with
    | none => (-EINVAL, sbi)
    | some index =>
      let bfl := nova_get_bdev_free_list_flat sbi index
      let block_low := blocknr
      let block_high := blocknr + num_blocks - 1
      if blocknr < bfl.block_start ∨ bfl.block_end + 1 < blocknr + num_blocks then
        (-eio, sbi)
      else
        let r := nova_free_blocks_core bfl nid block_low block_high num_blocks
        (r.1, setBdevFreeList sbi index r.2)

/-- The walk of claim C5, stated from the spec's words: skip every node of
size `s < n`; at the first node with `s = n` erase it; at the first node with
`s > n` advance its low bound by `n` (re-checksumming, §4.1). Returns the
low bound handed out, the new node list and whether a node was erased. -/
def claimWalkHead (num_blocks : Nat) : List RNode → Option (Nat × List RNode × Bool)
  | [] => none
  | curr :: rest =>
    let s := curr.range_high - curr.range_low + 1
    if s < num_blocks then
      (claimWalkHead num_blocks rest).map (fun r => (r.1, curr :: r.2.1, r.2.2))
    else if s = num_blocks then
      some (curr.range_low, rest, true)
    else
      some (curr.range_low,
            nova_update_range_node_checksum
              { curr with range_low := curr.range_low + num_blocks } :: rest,
            false)

/-- The FROM_HEAD shard allocation described by claim C5 / spec §4.1: walk
from the cached first node; on failure report OUT_OF_SPACE even when
`num_free_blocks ≥ n`; on success update the counters and re-cache the
extreme nodes. -/
def allocHeadSpec (bfl : BdevFreeList) (num_blocks : Nat) : Int × Nat × BdevFreeList :=
  match claimWalkHead num_blocks bfl.tree with
  | none => (-ENOSPC, 0, bfl)
  | some (b, t, erased) =>
    ((num_blocks : Int), b,
     { bfl with
       tree := t
       first_node := t.head?.map (fun n => n.id)
       last_node := t.getLast?.map (fun n => n.id)
       num_blocknode := if erased then bfl.num_blocknode - 1 else bfl.num_blocknode
       num_free_blocks := bfl.num_free_blocks - num_blocks })

/-- Size of a range node. -/
def nodeBlocks (n : RNode) : Nat := n.range_high - n.range_low + 1

/-- The in-order node list is sorted and separated: every node satisfies
`low ≤ high` and consecutive nodes a, b satisfy `a.high + 1 < b.low`
(spec §3 RangeTree invariant / claim C7). -/
def treeSepSorted (l : List RNode) : Prop :=
  (∀ nd ∈ l, nd.range_low ≤ nd.range_high) ∧
  List.Chain' (fun a b => a.range_high + 1 < b.range_low) l

/-- The counter invariant of claim C6 / spec §3 FreeList: `num_free_blocks`
is the total size of the tree's ranges, all ranges lie inside
`[block_start, block_end]`, and `num_blocknode` is the tree size. -/
def freeListConsistent (bfl : BdevFreeList) : Bool :=
  bfl.num_free_blocks == (bfl.tree.map nodeBlocks).sum &&
  bfl.tree.all (fun nd =>
    bfl.block_start ≤ nd.range_low && nd.range_high ≤ bfl.block_end) &&
  bfl.num_blocknode == bfl.tree.length

/-- Well-formedness of a shard as maintained by the C sources: node bounds
ordered, checksums valid, node ids distinct, cached first/last nodes are the
extremes of the in-order list, and the free counter matches the tree. -/
def wfBfl (bfl : BdevFreeList) : Bool :=
  bfl.tree.all (fun nd => nd.range_low ≤ nd.range_high) &&
  bfl.tree.all (fun nd => nova_range_node_checksum_ok nd) &&
  decide (bfl.tree.map (fun nd => nd.id)).Nodup &&
  bfl.first_node == bfl.tree.head?.map (fun n => n.id) &&
  bfl.last_node == bfl.tree.getLast?.map (fun n => n.id) &&
  bfl.num_free_blocks == (bfl.tree.map nodeBlocks).sum

/-- `FILE_WRITE` entry type tag. -/
def FILE_WRITE : Nat := 1

/-- Shift of the default 4 KiB block type (`blk_type_to_shift`). -/
def data_bits : Nat := 12

/-- `sb->s_blocksize_bits` for the 4 KiB configuration. -/
def s_blocksize_bits : Nat := 12

/-- A file-log write entry (`struct nova_file_write_entry`), the fields the
core reads.  `tier` is the entry's stored 6-bit tier field (spec §3 / §6:
"WriteEntry carries a `tier` byte"); `block` is the byte offset of the first
data block; `updating` is the mid-migration marker. -/
structure WriteEntry where
  entry_type : Nat
  tier : Nat
  updating : Nat
  num_pages : Nat
  block : Nat
  pgoff : Nat
  mtime : Nat
  epoch_id : Nat
  seq_count : Nat
  csum : Nat
deriving DecidableEq, Repr

/-- Modelled from the spec: `get_entry_tier` (declared outside the provided
sources) reads the write entry's stored tier field. -/
def get_entry_tier (e : WriteEntry) : Nat := e.tier

/-- Modelled from the spec: the checksum over a write entry's payload set by
`nova_update_entry_csum` (declared outside the provided sources). -/
def nova_entry_csum (e : WriteEntry) : Nat :=
  e.entry_type + 3 * e.tier + 5 * e.updating + 7 * e.num_pages + 11 * e.block +
  13 * e.pgoff + 17 * e.mtime + 19 * e.epoch_id + 23 * e.seq_count

/-- `nova_update_entry_csum`. -/
def nova_update_entry_csum (e : WriteEntry) : WriteEntry :=
  { e with csum := nova_entry_csum e }

/-- Modelled from the spec: `nova_get_block_off` (declared outside the
provided sources) — the byte offset of a block number for the default 4 KiB
block type. -/
def nova_get_block_off (blocknr : Nat) : Nat := blocknr <<< PAGE_SHIFT

/-- State threaded through a single-entry migration: the per-superblock
allocator state, the write entry `E` being migrated (mutated in place in C),
the entries appended to the file's log after `log_tail` (claims C1–C3 speak
of "no entry appended"), the write-locked vpmem pages, the device/flush
result oracles, the log-append success oracle and the inode counters. -/
structure MigState where
  sbi : Sbi
  entry : WriteEntry
  log : List WriteEntry
  locked_pages : List Nat
  io_ret : Int
  flush_ret : Int
  append_ok : Bool
  i_blocks : Nat
  trans_id : Nat
deriving DecidableEq, Repr

/-- Modelled from the spec: `vpmem_is_range_rwsem_locked` over the virtual
window (vpmem.h) — whether any page of `[startPg, startPg + count)` is
write-locked. Virtual addresses are identified with block numbers
(`blockoff_to_virt` is an affine bijection the lock state is indexed by). -/
def vpmem_is_range_rwsem_locked (locked : List Nat) (startPg count : Nat) : Bool :=
  locked.any (fun p => startPg ≤ p && p < startPg + count)

/-- `is_entry_busy` (migration.c:240): only block-device entries can be busy,
and only through the vpmem range write-lock. -/
def is_entry_busy (st : MigState) (e : WriteEntry) : Bool :=
  if is_tier_bdev (get_entry_tier e) = false then false
  else vpmem_is_range_rwsem_locked st.locked_pages (e.block >>> PAGE_SHIFT) e.num_pages

/-- `nova_bdev_write_block` submission outcome (the data movement itself is
outside the model; the device's status is the `io_ret` oracle). -/
def nova_bdev_write_block_m (st : MigState) : Int := st.io_ret

/-- `nova_bdev_read_block` submission outcome. -/
def nova_bdev_read_block_m (st : MigState) : Int := st.io_ret

/-- `migrate_blocks_pmem_to_bdev` (migration.c:183). -/
def migrate_blocks_pmem_to_bdev (st : MigState) : Int := nova_bdev_write_block_m st

/-- `migrate_blocks_bdev_to_pmem` (migration.c:194). -/
def migrate_blocks_bdev_to_pmem (st : MigState) : Int := nova_bdev_read_block_m st

/-- `migrate_blocks_bdev_to_bdev` (migration.c:206): one SYNC read then one
SYNC write through the DRAM buffer; the returned value is the write's. -/
def migrate_blocks_bdev_to_bdev (st : MigState) : Int := nova_bdev_write_block_m st

/-- `migrate_blocks` (migration.c:220): dispatch on the tier pair, `-2` for
an unsupported pair. -/
def migrate_blocks (st : MigState) (tfrom tto : Nat) : Int :=
  if is_tier_pmem tfrom && is_tier_bdev tto then migrate_blocks_pmem_to_bdev st
  else if is_tier_bdev tfrom && is_tier_pmem tto then migrate_blocks_bdev_to_pmem st
  else if is_tier_bdev tfrom && is_tier_bdev tto then migrate_blocks_bdev_to_bdev st
  else -2

/-- Modelled from the spec: `flush_bal_entry` — `flush_async()` awaiting all
pending ASYNC submissions; its aggregate result is the `flush_ret` oracle. -/
def flush_bal_entry (st : MigState) : Int := st.flush_ret

/-- `nova_clone_write_entry` (migration.c:247): copy the whole entry, stamp
`entry_type` and the new `block`, re-checksum and append; on success bump
`i_blocks` and `trans_id`.  (`nova_append_file_write_entry` is modelled from
the spec as appending to the log, failing when the `append_ok` oracle is
false.)  Note the `tier` parameter is never applied to the copy. -/
def nova_clone_write_entry (st : MigState) (tier : Nat) (block : Nat) : Int × MigState :=
  let e := st.entry
  let entry_data := { e with entry_type := FILE_WRITE, block := nova_get_block_off block }
  let entry_data := nova_update_entry_csum entry_data
  if st.append_ok = false then (-ENOSPC, st)
  else
    (0, { st with
          log := st.log ++ [entry_data]
          i_blocks := st.i_blocks + (e.num_pages <<< (data_bits - s_blocksize_bits))
          trans_id := st.trans_id + 1 })

/-- `migrate_entry_blocks` (migration.c:305): Check (tier match, busy test),
Allocate (hint or `nova_alloc_block_tier`), Copy (`migrate_blocks` then
`flush_bal_entry`), then clear `updating`, re-checksum, and in solo mode
append the cloned entry. -/
def migrate_entry_blocks (st : MigState) (tfrom tto : Nat) (blocknr_hint : Nat) :
    Int × MigState :=
  if get_entry_tier st.entry ≠ tfrom then (0, st)
  else if is_entry_busy st st.entry then (-1, st)
  else
    let st := { st with entry := { st.entry with updating := 1 } }
    let alloc : Int × Nat × MigState :=
      if blocknr_hint ≠ 0 then (0, blocknr_hint, st)
      else
        let r := nova_alloc_block_tier st.sbi tto ANY_CPU 0 st.entry.num_pages
        (r.1, r.2.1, { st with sbi := r.2.2 })
    let ret := alloc.1
    let blocknr := alloc.2.1
    let st := alloc.2.2
    if ret < 0 then (ret, st)
    else
      let ret := migrate_blocks st tfrom tto
      if ret < 0 then (ret, st)
      else
        let ret := flush_bal_entry st
        if ret < 0 then (ret, st)
        else
          let st := { st with entry := nova_update_entry_csum { st.entry with updating := 0 } }
          if blocknr_hint = 0 then nova_clone_write_entry st tto blocknr
          else (ret, st)

/-- The volatile inode summary fields touched by `nova_update_sih_tier`. -/
structure SihLru where
  ino : Nat
  ltier : Nat
  htier : Nat
deriving DecidableEq, Repr

/-- The per-superblock inode LRU lists (`sbi->inode_lru_lists`): a flat array
indexed by `tier * cpus + cpu` of inode-number lists (head = least recently
used, tail = insertion point of `list_add_tail`). -/
structure LruState where
  cpus : Nat
  lists : List (List Nat)
deriving DecidableEq, Repr

/-- `nova_get_inode_lru_lists` index (profile.c:118). -/
def lruIdx (cpus tier cpu : Nat) : Nat := tier * cpus + cpu

/-- Erase the inode from the LRU list at flat index `idx` (`list_del_init`
when the hook is linked; a no-op when it is not). -/
def lruErase (st : LruState) (idx ino : Nat) : LruState :=
  { st with lists := st.lists.set idx ((st.lists.getD idx []).erase ino) }

/-- Append the inode at the tail of the LRU list at flat index `idx`
(`list_add_tail`). -/
def lruAddTail (st : LruState) (idx ino : Nat) : LruState :=
  { st with lists := st.lists.set idx ((st.lists.getD idx []).concat ino) }

/-- The loop body of `nova_remove_inode_lru_list` applied for
`i = 0, …, bound`. -/
def lruRemoveUpTo (sih : SihLru) : Nat → LruState → LruState
  | 0, st => lruErase st (lruIdx st.cpus 0 (sih.ino % st.cpus)) sih.ino
  | i + 1, st =>
    lruErase (lruRemoveUpTo sih i st) (lruIdx st.cpus (i + 1) (sih.ino % st.cpus)) sih.ino

/-- `nova_remove_inode_lru_list` (profile.c:126): unlink the inode from the
LRU lists of every tier `i ≤ tier` on the inode's CPU (`ino % cpus`). -/
def nova_remove_inode_lru_list (st : LruState) (sih : SihLru) (tier : Nat) : LruState :=
  lruRemoveUpTo sih tier st

/-- `nova_update_sih_tier` (profile.c:155). -/
def nova_update_sih_tier (st : LruState) (sih : SihLru) (tier : Nat)
    (force write : Bool) : LruState × SihLru :=
  let cpu := sih.ino % st.cpus
  let idx := lruIdx st.cpus tier cpu
  if force then
    let st := nova_remove_inode_lru_list st sih TIER_BDEV_HIGH
    let st := lruAddTail st idx sih.ino
    (st, { sih with htier := tier, ltier := tier })
  else if write then
    let st := lruAddTail (lruErase st idx sih.ino) idx sih.ino
    let ltier' := if tier < sih.ltier then tier else sih.ltier
    let htier' := if sih.htier < tier then tier else sih.htier
    (st, { sih with ltier := ltier', htier := htier' })
  else
    let st := nova_remove_inode_lru_list st sih tier
    let st := lruAddTail st idx sih.ino
    let ltier' := if sih.ltier < tier then tier else sih.ltier
    let htier' := if sih.htier < ltier' then ltier' else sih.htier
    (st, { sih with ltier := ltier', htier := htier' })

/-- `nova_pmem_used` (migration.c:740): per-CPU PMEM shards report
`block_end - block_start + 1 - num_free_blocks`. -/
def nova_pmem_used (sbi : Sbi) : Nat :=
  ((List.range sbi.cpus).map (fun i =>
    let fl := sbi.pmem_free_list.getD i emptyBfl
    fl.block_end - fl.block_start + 1 - fl.num_free_blocks)).sum

/-- `nova_pmem_total` (migration.c:753). -/
def nova_pmem_total (sbi : Sbi) : Nat :=
  ((List.range sbi.cpus).map (fun i =>
    let fl := sbi.pmem_free_list.getD i emptyBfl
    fl.block_end - fl.block_start + 1)).sum

/-- `is_pmem_usage_high` (migration.c:766). -/
def is_pmem_usage_high (sbi : Sbi) : Bool :=
  nova_pmem_used sbi * 100 > MIGRATION_DOWNWARD_PERC * nova_pmem_total sbi

/-- `nova_bdev_used` (migration.c:774). -/
def nova_bdev_used (sbi : Sbi) (tier : Nat) : Nat :=
  ((List.range sbi.cpus).map (fun i =>
    let bfl := nova_get_bdev_free_list sbi tier i
    bfl.num_total_blocks - bfl.num_free_blocks)).sum

/-- `nova_bdev_total` (migration.c:786). -/
def nova_bdev_total (sbi : Sbi) (tier : Nat) : Nat :=
  ((List.range sbi.cpus).map (fun i =>
    (nova_get_bdev_free_list sbi tier i).num_total_blocks)).sum

/-- `is_bdev_usage_high` (migration.c:798). -/
def is_bdev_usage_high (sbi : Sbi) (tier : Nat) : Bool :=
  nova_bdev_used sbi tier * 100 > MIGRATION_DOWNWARD_PERC * nova_bdev_total sbi tier

/-- The oracle for `nova_iget` + `nova_get_write_entry(sih, 0)` +
`get_entry_tier`: the tier of the first write entry of inode `ino`, `none`
when the inode or its first write entry cannot be obtained. -/
def firstEntryTier (sbi : Sbi) (ino : Nat) : Option Nat :=
  (sbi.first_entry_tier.find? (fun p => p.1 == ino)).map (fun p => p.2)

/-- The inner `for (k = range_low; k <= range_high; ++k)` loop of
`pop_an_inode_to_migrate`: skip reserved slots `k ≤ 8`; when the inode or its
first entry is missing the loop is abandoned (`goto next` leaves the whole
range node); an inode on the wanted tier is returned. -/
def popScanKs (sbi : Sbi) (tier j : Nat) : List Nat → Option Nat
  | [] => none
  | k :: ks =>
    if k ≤ 8 then popScanKs sbi tier j ks
    else
      match firstEntryTier sbi (k * sbi.cpus + j) with
      | none => none
      | some t => if t = tier then some (k * sbi.cpus + j) else popScanKs sbi tier j ks

/-- Walk all range nodes of one inode-map shard. -/
def popScanShard (sbi : Sbi) (tier j : Nat) (nodes : List (Nat × Nat)) : Option Nat :=
  nodes.findSome? (fun nd => popScanKs sbi tier j (List.range' nd.1 (nd.2 + 1 - nd.1)))

/-- `pop_an_inode_to_migrate` (migration.c:806): round-robin over the CPU
shards starting at the current CPU, returning the first inode whose first
write entry is on `tier` that the walk reaches. -/
def pop_an_inode_to_migrate (sbi : Sbi) (tier : Nat) : Option Nat :=
  ((List.range sbi.cpus).map (fun d => (sbi.proc_id + d) % sbi.cpus)).findSome?
    (fun j => popScanShard sbi tier j (sbi.inode_maps.getD j []))

/-- The `migrate_a_file` invocations issued by one run of
`do_migrate_a_file_downward` (migration.c:886), with the inode argument as it
is passed (`none` models the NULL pointer).  The PMEM branch returns early
when no victim is found; the block-device loop has no such exit and calls
`migrate_a_file` with whatever `pop_an_inode_to_migrate` produced. -/
def do_migrate_a_file_downward_calls (sbi : Sbi) : List (Option Nat × Nat × Nat) :=
  let bdevCalls :=
    ((List.range' TIER_BDEV_LOW (TIER_BDEV_HIGH - TIER_BDEV_LOW)).map (fun i =>
      if is_bdev_usage_high sbi i then [(pop_an_inode_to_migrate sbi i, i, i + 1)]
      else [])).flatten
  if is_pmem_usage_high sbi then
    match pop_an_inode_to_migrate sbi TIER_PMEM with
    | none => []
    | some ino => (some ino, TIER_PMEM, TIER_BDEV_LOW) :: bdevCalls
  else bdevCalls

/-! ### Concrete states used to evaluate the code on specific inputs -/

/-- A fresh tier-1 shard covering blocks `[100, 199]` (PMEM owns `[0, 99]`). -/
def bflT1 : BdevFreeList :=
  { tier := 1, cpu := 0, block_start := 100, block_end := 199, num_total_blocks := 100,
    num_free_blocks := 100, num_blocknode := 1, first_node := some 1, last_node := some 1,
    tree := [{ id := 1, range_low := 100, range_high := 199, csum := nova_csum 100 199 }] }

/-- A fresh tier-2 shard covering blocks `[200, 299]`. -/
def bflT2 : BdevFreeList :=
  { tier := 2, cpu := 0, block_start := 200, block_end := 299, num_total_blocks := 100,
    num_free_blocks := 100, num_blocknode := 1, first_node := some 2, last_node := some 2,
    tree := [{ id := 2, range_low := 200, range_high := 299, csum := nova_csum 200 299 }] }

/-- A fresh PMEM shard covering blocks `[0, 99]`. -/
def flPmem : BdevFreeList :=
  { tier := 0, cpu := 0, block_start := 0, block_end := 99, num_total_blocks := 100,
    num_free_blocks := 100, num_blocknode := 1, first_node := some 3, last_node := some 3,
    tree := [{ id := 3, range_low := 0, range_high := 99, csum := nova_csum 0 99 }] }

/-- One CPU, 100 PMEM blocks, two block-device tiers of 100 blocks each. -/
def sbiEx : Sbi :=
  { cpus := 1, proc_id := 0, num_blocks := 100, next_node_id := 50,
    bdev_list := [{ capacity_page := 100, opt_size_bit := 3 },
                  { capacity_page := 100, opt_size_bit := 3 }],
    bdev_free_list := [bflT1, bflT2],
    pmem_free_list := [flPmem],
    inode_maps := [], first_entry_tier := [] }

/-- `sbiEx` with an exhausted tier-1 shard. -/
def sbiNoSpace : Sbi :=
  { sbiEx with bdev_free_list :=
      [{ bflT1 with num_free_blocks := 0, num_blocknode := 0,
                    first_node := none, last_node := none, tree := [] }, bflT2] }

/-- A PMEM write entry: 4 pages at file page 7, data at block 5. -/
def entryEx : WriteEntry :=
  { entry_type := FILE_WRITE, tier := 0, updating := 0, num_pages := 4,
    block := nova_get_block_off 5, pgoff := 7, mtime := 111, epoch_id := 3,
    seq_count := 2, csum := 0 }

/-- Migration state for a solo PMEM→tier-1 migration of `entryEx` with a
healthy allocator, device and log. -/
def stSolo : MigState :=
  { sbi := sbiEx, entry := entryEx, log := [], locked_pages := [],
    io_ret := 0, flush_ret := 0, append_ok := true, i_blocks := 10, trans_id := 1 }

/-- `stSolo` with an exhausted destination tier (the Allocate step fails). -/
def stAllocFail : MigState := { stSolo with sbi := sbiNoSpace }

/-- `stSolo` with a failing block device (the Copy step fails). -/
def stCopyFail : MigState := { stSolo with io_ret := -5 }

/-- `stSolo` with the entry already marked `updating = 1`. -/
def stUpdating : MigState := { stSolo with entry := { entryEx with updating := 1 } }

/-- A tier-1 entry whose vpmem page range contains the write-locked page 52:
`is_entry_busy` holds for it. -/
def entryBusy : WriteEntry :=
  { entryEx with tier := 1, block := nova_get_block_off 50 }

/-- Migration state in which `entryBusy` is write-locked. -/
def stBusy : MigState :=
  { stSolo with entry := entryBusy, locked_pages := [52] }

/-- State for claim C10: PMEM usage low, tier-1 usage 80 % (high), and no
inode whose first write entry can be obtained. -/
def bflT1Busy : BdevFreeList :=
  { bflT1 with
    num_free_blocks := 20,
    tree := [{ id := 1, range_low := 180, range_high := 199,
               csum := nova_csum 180 199 }] }

def sbiDownward : Sbi :=
  { sbiEx with
    bdev_free_list := [bflT1Busy, bflT2],
    inode_maps := [[(9, 9)]], first_entry_tier := [] }

/-- State for claim C8's counterexample: two CPU shards; shard 1 holds the
inode-range slot `k = 4`, i.e. inode `4 * 2 + 1 = 9`, whose first write entry
is on tier 1. -/
def sbiPop : Sbi :=
  { cpus := 2, proc_id := 0, num_blocks := 0, next_node_id := 0,
    bdev_list := [], bdev_free_list := [], pmem_free_list := [],
    inode_maps := [[], [(4, 4)]], first_entry_tier := [(9, 1)] }

/-- A state on which `pop_an_inode_to_migrate` succeeds (slot `k = 10` of the
only shard, inode 10, first entry on tier 1). -/
def sbiPopHit : Sbi :=
  { cpus := 1, proc_id := 0, num_blocks := 0, next_node_id := 0,
    bdev_list := [], bdev_free_list := [], pmem_free_list := [],
    inode_maps := [[(10, 10)]], first_entry_tier := [(10, 1)] }

/-- LRU state for claim C9's counterexample: one CPU; inode 7 sits on the
tier-0 and tier-2 lists. -/
def lruEx : LruState := { cpus := 1, lists := [[7], [], [7]] }

/-- The inode summary of inode 7 spanning tiers 0–2. -/
def sihEx : SihLru := { ino := 7, ltier := 0, htier := 2 }

/-- Shard used by claim C7's witness: two ranges `[100,149]` and `[160,199]`
separated by the hole `[150,159]`. -/
def bflHole : BdevFreeList :=
  { tier := 1, cpu := 0, block_start := 100, block_end := 199, num_total_blocks := 100,
    num_free_blocks := 90, num_blocknode := 2, first_node := some 1, last_node := some 2,
    tree := [{ id := 1, range_low := 100, range_high := 149, csum := nova_csum 100 149 },
             { id := 2, range_low := 160, range_high := 199, csum := nova_csum 160 199 }] }

/-- `sbiEx` with `bflHole` as the tier-1 shard. -/
def sbiHole : Sbi := { sbiEx with bdev_free_list := [bflHole, bflT2] }

/-- Shard used by claim C5's witness: two size-3 ranges, so a request of 4
blocks fails even though 6 blocks are free. -/
def bflFrag : BdevFreeList :=
  { tier := 1, cpu := 0, block_start := 100, block_end := 199, num_total_blocks := 100,
    num_free_blocks := 6, num_blocknode := 2, first_node := some 1, last_node := some 2,
    tree := [{ id := 1, range_low := 110, range_high := 112, csum := nova_csum 110 112 },
             { id := 2, range_low := 120, range_high := 122, csum := nova_csum 120 122 }] }

/-! ### Theorems for the claims -/

/-- C1: for the successful solo migration of `entryEx` from PMEM (tier 0) to
tier 1, exactly one cloned entry is appended and it inherits `pgoff`,
`num_pages`, `mtime`, `epoch_id` and `seq_count` from E — but it carries the
SOURCE tier 0, not the destination tier 1: `nova_clone_write_entry` copies
the entry wholesale and never applies its `tier` parameter, so the claim's
`tier = to` fails on the code. -/
theorem c1_solo_clone_keeps_source_tier :
    (migrate_entry_blocks stSolo 0 1 0).1 = 0 ∧
    (migrate_entry_blocks stSolo 0 1 0).2.log.length = 1 ∧
    ((migrate_entry_blocks stSolo 0 1 0).2.log.headD entryEx).pgoff = entryEx.pgoff ∧
    ((migrate_entry_blocks stSolo 0 1 0).2.log.headD entryEx).num_pages = entryEx.num_pages ∧
    ((migrate_entry_blocks stSolo 0 1 0).2.log.headD entryEx).mtime = entryEx.mtime ∧
    ((migrate_entry_blocks stSolo 0 1 0).2.log.headD entryEx).epoch_id = entryEx.epoch_id ∧
    ((migrate_entry_blocks stSolo 0 1 0).2.log.headD entryEx).seq_count = entryEx.seq_count ∧
    ((migrate_entry_blocks stSolo 0 1 0).2.log.headD entryEx).tier = 0 ∧
    ¬ ((migrate_entry_blocks stSolo 0 1 0).2.log.headD entryEx).tier = 1 := by
  decide

/-- C2: when the Allocate step fails (destination tier exhausted) or the
Copy step fails (device error), `migrate_entry_blocks` returns an error with
the log unchanged but with `E.updating = 1`, not 0: the early returns after
`entry->updating = 1` never clear the flag, so the claim's
"`E.updating` equals 0" fails on the code. -/
theorem c2_failed_migration_leaves_updating_set :
    ((migrate_entry_blocks stAllocFail 0 1 0).1 = -28 ∧
     (migrate_entry_blocks stAllocFail 0 1 0).2.entry.updating = 1 ∧
     (migrate_entry_blocks stAllocFail 0 1 0).2.log = stAllocFail.log) ∧
    ((migrate_entry_blocks stCopyFail 0 1 0).1 = -5 ∧
     (migrate_entry_blocks stCopyFail 0 1 0).2.entry.updating = 1 ∧
     (migrate_entry_blocks stCopyFail 0 1 0).2.log = stCopyFail.log) := by
  decide

/-- C3 counterexample: an entry with `updating = 1` (PMEM tier, no vpmem
lock) is NOT rejected with BUSY — the migration runs to completion
(returns 0, appends a clone and rewrites E), because `is_entry_busy` never
examines `updating`. -/
theorem c3_updating_entry_not_busy :
    stUpdating.entry.updating = 1 ∧
    is_entry_busy stUpdating stUpdating.entry = false ∧
    (migrate_entry_blocks stUpdating 0 1 0).1 = 0 ∧
    ¬ (migrate_entry_blocks stUpdating 0 1 0).1 = -1 ∧
    (migrate_entry_blocks stUpdating 0 1 0).2.log.length = 1 := by
  decide

/-- C3 amended: the Check phase fails with BUSY (−1) iff `is_entry_busy`
holds, i.e. iff the entry's tier is a block-device tier and some vpmem page
of its range is write-locked — `E.updating` is not consulted.  When the busy
test holds, neither E nor the log (nor anything else in the state) is
mutated. -/
theorem c3_busy_check_is_vpmem_lock_only (st : MigState) (tfrom tto hint : Nat)
    (htier : get_entry_tier st.entry = tfrom)
    (hbusy : is_entry_busy st st.entry = true) :
    migrate_entry_blocks st tfrom tto hint = (-1, st) := by
  simp [migrate_entry_blocks, htier, hbusy]

theorem c3_busy_check_witness :
    get_entry_tier stBusy.entry = 1 ∧ is_entry_busy stBusy stBusy.entry = true ∧
    migrate_entry_blocks stBusy 1 2 0 = (-1, stBusy) :=
  ⟨by decide, by decide, c3_busy_check_is_vpmem_lock_only stBusy 1 2 0 (by decide) (by decide)⟩

/-- C4: allocating 10 blocks on tier 2 via `nova_alloc_block_tier` succeeds
(returns 10) but (a) the blocks are carved out of the TIER-1 shard (the
tier-2 shard is untouched) because `nova_bdev_alloc_blocks` passes the
constant `TIER_BDEV_LOW` to `nova_new_blocks_from_bdev`, and (b) the
returned start block is 0 — `*blocknr -= sbi->num_blocks` strips the PMEM
offset — so the run `[0, 10)` lies in no block-device tier window, let alone
tier 2's `[200, 299]`. -/
theorem c4_bdev_alloc_wrong_tier_and_window :
    (nova_alloc_block_tier sbiEx 2 ANY_CPU 0 10).1 = 10 ∧
    (nova_alloc_block_tier sbiEx 2 ANY_CPU 0 10).2.1 = 0 ∧
    nova_get_bdev_free_list_flat (nova_alloc_block_tier sbiEx 2 ANY_CPU 0 10).2.2 1 = bflT2 ∧
    (nova_get_bdev_free_list_flat (nova_alloc_block_tier sbiEx 2 ANY_CPU 0 10).2.2 0).num_free_blocks = 90 ∧
    nova_tier_start_block sbiEx 2 = 200 ∧
    ¬ (nova_tier_start_block sbiEx 2 ≤ (nova_alloc_block_tier sbiEx 2 ANY_CPU 0 10).2.1) := by
  decide

/-- C6: one successful allocation of 10 blocks from the fresh tier-1 shard
through `nova_new_blocks_from_bdev` breaks the counter invariant: the tree
still holds one node, but `num_blocknode` becomes 2 because the caller
increments it after every successful allocation (bdev.c:504), while
`num_free_blocks` and the range bounds stay correct. -/
theorem c6_alloc_breaks_blocknode_counter :
    freeListConsistent bflT1 = true ∧
    (nova_new_blocks_from_bdev sbiEx 1 0 10 ANY_CPU .head).1 = 10 ∧
    (nova_get_bdev_free_list_flat (nova_new_blocks_from_bdev sbiEx 1 0 10 ANY_CPU .head).2.2 0).num_blocknode = 2 ∧
    (nova_get_bdev_free_list_flat (nova_new_blocks_from_bdev sbiEx 1 0 10 ANY_CPU .head).2.2 0).tree.length = 1 ∧
    freeListConsistent
      (nova_get_bdev_free_list_flat (nova_new_blocks_from_bdev sbiEx 1 0 10 ANY_CPU .head).2.2 0) = false := by
  decide

/-- C8 counterexample: with 2 CPUs, inode 9 (> 8) lives in slot `k = 4` of
shard 1 (`9 = 4*2 + 1`) and its first write entry is on tier 1, yet
`pop_an_inode_to_migrate` returns no inode: the reserved-range filter skips
slots `k ≤ 8`, not inode numbers `≤ 8`. -/
theorem c8_pop_skips_small_slot_inode :
    8 < 9 ∧ firstEntryTier sbiPop 9 = some 1 ∧
    pop_an_inode_to_migrate sbiPop 1 = none := by
  decide

/-- C9 counterexample: inode 7 sits on the tier-0 and tier-2 LRU lists;
`nova_update_sih_tier(sih, 1, force := false, write := false)` removes it
from the tier-0 list (tier < 1, which the claim says is left unchanged) and
leaves it on the tier-2 list (tier > 1, which the claim says is removed):
`nova_remove_inode_lru_list` walks tiers `0..tier`, not the tiers above. -/
theorem c9_update_keeps_higher_lists :
    lruEx.lists.getD (lruIdx 1 0 0) [] = [7] ∧
    lruEx.lists.getD (lruIdx 1 2 0) [] = [7] ∧
    (nova_update_sih_tier lruEx sihEx 1 false false).1.lists = [[], [7], [7]] ∧
    (nova_update_sih_tier lruEx sihEx 1 false false).1.lists.getD (lruIdx 1 0 0) [] = [] ∧
    (nova_update_sih_tier lruEx sihEx 1 false false).1.lists.getD (lruIdx 1 2 0) [] = [7] := by
  decide

/-- C10: in a state where block-device tier 1 is over the 75 % threshold and
no victim inode with a first write entry on tier 1 exists,
`do_migrate_a_file_downward` still invokes `migrate_a_file` — with the nil
inode — because the block-device loop, unlike the PMEM branch, does not skip
the tier when `pop_an_inode_to_migrate` returns NULL.  The nil-inode branch
is reachable. -/
theorem c10_downward_calls_nil_inode :
    is_pmem_usage_high sbiDownward = false ∧
    is_bdev_usage_high sbiDownward 1 = true ∧
    pop_an_inode_to_migrate sbiDownward 1 = none ∧
    do_migrate_a_file_downward_calls sbiDownward = [(none, 1, 2)] := by
  decide

/-- Soundness of the inner slot loop of `pop_an_inode_to_migrate`: a
returned inode comes from a slot `k > 8` of the walked list and its first
write entry is on the wanted tier. -/
theorem popScanKs_sound (sbi : Sbi) (tier j : Nat) :
    ∀ (ks : List Nat) (ino : Nat), popScanKs sbi tier j ks = some ino →
      ∃ k, 8 < k ∧ ino = k * sbi.cpus + j ∧ firstEntryTier sbi ino = some tier := by
  intro ks
  induction ks with
  | nil => intro ino h; simp [popScanKs] at h
  | cons k ks ih =>
    intro ino h
    simp only [popScanKs] at h
    by_cases hk : k ≤ 8
    · rw [if_pos hk] at h
      exact ih ino h
    · rw [if_neg hk] at h
      rcases hfe : firstEntryTier sbi (k * sbi.cpus + j) with _ | t
      · simp only [hfe] at h
        exact absurd h (by simp)
      · simp only [hfe] at h
        by_cases ht : t = tier
        · rw [if_pos ht] at h
          have hi : ino = k * sbi.cpus + j := by
            injection h; omega
          refine ⟨k, by omega, hi, ?_⟩
          rw [hi, hfe, ht]
        · rw [if_neg ht] at h
          exact ih ino h

/-- C8 amended: whenever `pop_an_inode_to_migrate` returns an inode, that
inode decomposes as `ino = k * cpus + j` for a shard `j < cpus` and a slot
`k > 8` (so `ino > 8 * cpus + j`, not merely `ino > 8`), and its first write
entry is on the requested tier. -/
theorem c8_pop_victim_filter_sound (sbi : Sbi) (tier ino : Nat)
    (h : pop_an_inode_to_migrate sbi tier = some ino) :
    ∃ j k, j < sbi.cpus ∧ 8 < k ∧ ino = k * sbi.cpus + j ∧
      firstEntryTier sbi ino = some tier := by
  unfold pop_an_inode_to_migrate at h
  obtain ⟨j, hjmem, hj⟩ := List.exists_of_findSome?_eq_some h
  obtain ⟨d, hdmem, hd⟩ := List.mem_map.mp hjmem
  have hd' : d < sbi.cpus := List.mem_range.mp hdmem
  have hcpus : 0 < sbi.cpus := by omega
  have hjlt : j < sbi.cpus := by
    rw [← hd]; exact Nat.mod_lt _ hcpus
  unfold popScanShard at hj
  obtain ⟨nd, _, hnd⟩ := List.exists_of_findSome?_eq_some hj
  obtain ⟨k, hk8, hkeq, hfe⟩ := popScanKs_sound sbi tier j _ ino hnd
  exact ⟨j, k, hjlt, hk8, hkeq, hfe⟩

theorem c8_pop_victim_witness :
    pop_an_inode_to_migrate sbiPopHit 1 = some 10 ∧
    ∃ j k, j < sbiPopHit.cpus ∧ 8 < k ∧ 10 = k * sbiPopHit.cpus + j ∧
      firstEntryTier sbiPopHit 10 = some 1 :=
  ⟨by decide, c8_pop_victim_filter_sound sbiPopHit 1 10 (by decide)⟩

theorem lruErase_cpus (st : LruState) (idx ino : Nat) :
    (lruErase st idx ino).cpus = st.cpus := rfl

theorem lruErase_length (st : LruState) (idx ino : Nat) :
    (lruErase st idx ino).lists.length = st.lists.length := by
  simp [lruErase]

theorem lruRemoveUpTo_cpus (sih : SihLru) :
    ∀ (n : Nat) (st : LruState), (lruRemoveUpTo sih n st).cpus = st.cpus := by
  intro n
  induction n with
  | zero => intro st; rfl
  | succ n ih => intro st; simp [lruRemoveUpTo, lruErase_cpus, ih]

theorem lruRemoveUpTo_length (sih : SihLru) :
    ∀ (n : Nat) (st : LruState),
      (lruRemoveUpTo sih n st).lists.length = st.lists.length := by
  intro n
  induction n with
  | zero => intro st; simp [lruRemoveUpTo, lruErase_length]
  | succ n ih => intro st; simp [lruRemoveUpTo, lruErase_length, ih]

theorem lruErase_getD (st : LruState) (idx ino j : Nat) (hidx : idx < st.lists.length) :
    (lruErase st idx ino).lists.getD j [] =
      if idx = j then (st.lists.getD j []).erase ino else st.lists.getD j [] := by
  by_cases h : idx = j
  · subst h; simp [lruErase, List.getD, List.getElem?_set_self', hidx]
  · simp [lruErase, List.getD, List.getElem?_set_ne h, h]

theorem lruAddTail_getD (st : LruState) (idx ino j : Nat) (hidx : idx < st.lists.length) :
    (lruAddTail st idx ino).lists.getD j [] =
      if idx = j then (st.lists.getD j []).concat ino else st.lists.getD j [] := by
  by_cases h : idx = j
  · subst h; simp [lruAddTail, List.getD, List.getElem?_set_self', hidx]
  · simp [lruAddTail, List.getD, List.getElem?_set_ne h, h]

theorem lruIdx_inj (cpus t c t' c' : Nat) (hc : c < cpus) (hc' : c' < cpus)
    (h : lruIdx cpus t c = lruIdx cpus t' c') : t = t' ∧ c = c' := by
  unfold lruIdx at h
  have h1 : (t * cpus + c) % cpus = c % cpus := by
    rw [Nat.mul_comm]; exact Nat.mul_add_mod cpus t c
  have h2 : (t' * cpus + c') % cpus = c' % cpus := by
    rw [Nat.mul_comm]; exact Nat.mul_add_mod cpus t' c'
  rw [Nat.mod_eq_of_lt hc] at h1
  rw [Nat.mod_eq_of_lt hc'] at h2
  have hcc : c = c' := by rw [← h1, ← h2, h]
  refine ⟨?_, hcc⟩
  have hm : t * cpus = t' * cpus := by omega
  exact Nat.eq_of_mul_eq_mul_right (by omega) hm

theorem lruRemoveUpTo_getD (sih : SihLru) :
    ∀ (n : Nat) (st : LruState) (t c : Nat),
      c < st.cpus → t ≤ TIER_BDEV_HIGH → n ≤ TIER_BDEV_HIGH →
      (TIER_BDEV_HIGH + 1) * st.cpus ≤ st.lists.length →
      (lruRemoveUpTo sih n st).lists.getD (lruIdx st.cpus t c) [] =
        if t ≤ n ∧ c = sih.ino % st.cpus
        then (st.lists.getD (lruIdx st.cpus t c) []).erase sih.ino
        else st.lists.getD (lruIdx st.cpus t c) [] := by
  intro n
  induction n with
  | zero =>
    intro st t c hc ht _ hlen
    have hcpos : 0 < st.cpus := by omega
    have hmod : sih.ino % st.cpus < st.cpus := Nat.mod_lt _ hcpos
    have hidx : lruIdx st.cpus 0 (sih.ino % st.cpus) < st.lists.length := by
      have h1 : (TIER_BDEV_HIGH + 1) * st.cpus = 3 * st.cpus := by norm_num [TIER_BDEV_HIGH]
      simp only [lruIdx]
      omega
    rw [lruRemoveUpTo, lruErase_getD st _ _ _ hidx]
    by_cases heq : lruIdx st.cpus 0 (sih.ino % st.cpus) = lruIdx st.cpus t c
    · obtain ⟨h1, h2⟩ := lruIdx_inj st.cpus 0 (sih.ino % st.cpus) t c hmod hc heq
      rw [if_pos heq, if_pos (by omega)]
    · rw [if_neg heq, if_neg ?_]
      intro ⟨h1, h2⟩
      exact heq (by rw [h2]; congr 1; omega)
  | succ n ih =>
    intro st t c hc ht hn hlen
    have hcpos : 0 < st.cpus := by omega
    have hmod : sih.ino % st.cpus < st.cpus := Nat.mod_lt _ hcpos
    have hmul : (n + 2) * st.cpus ≤ (TIER_BDEV_HIGH + 1) * st.cpus :=
      Nat.mul_le_mul_right _ (by omega)
    have hsucc : (n + 2) * st.cpus = (n + 1) * st.cpus + st.cpus := by ring
    have hidx : lruIdx st.cpus (n + 1) (sih.ino % st.cpus) < st.lists.length := by
      simp only [lruIdx]
      omega
    have hidx' : lruIdx st.cpus (n + 1) (sih.ino % st.cpus) <
        (lruRemoveUpTo sih n st).lists.length := by
      rw [lruRemoveUpTo_length]; exact hidx
    rw [lruRemoveUpTo, lruErase_getD _ _ _ _ hidx']
    by_cases heq : lruIdx st.cpus (n + 1) (sih.ino % st.cpus) = lruIdx st.cpus t c
    · obtain ⟨h1, h2⟩ := lruIdx_inj st.cpus (n + 1) (sih.ino % st.cpus) t c hmod hc heq
      rw [if_pos heq, ih st t c hc ht (by omega) hlen,
          if_neg (by omega), if_pos (by omega)]
    · rw [if_neg heq, ih st t c hc ht (by omega) hlen]
      have hne : ¬ (t = n + 1 ∧ c = sih.ino % st.cpus) := by
        intro ⟨h1, h2⟩
        exact heq (by rw [h2]; congr 1; omega)
      by_cases hcond : t ≤ n ∧ c = sih.ino % st.cpus
      · rw [if_pos hcond, if_pos (by omega)]
      · rw [if_neg hcond, if_neg ?_]
        intro ⟨h1, h2⟩
        rcases Nat.lt_or_ge t (n + 1) with hlt | hge
        · exact hcond ⟨by omega, h2⟩
        · exact hne ⟨by omega, h2⟩

/-- C9 amended: `update_sih_tier(sih, tier, force := false, write := false)`
removes the inode from the LRU lists of every tier `t ≤ tier` on the inode's
CPU, re-inserts it at the tail of the (tier, cpu) list, leaves every list of
a tier strictly greater than `tier` (and every other CPU's list) unchanged,
raises `ltier` to `tier` when it was below it, and raises `htier` to the new
`ltier` when it fell below. -/
theorem c9_update_tier_removes_lower_lists (st : LruState) (sih : SihLru) (tier : Nat)
    (ht : tier ≤ TIER_BDEV_HIGH)
    (hlen : st.lists.length = (TIER_BDEV_HIGH + 1) * st.cpus)
    (hcpus : 0 < st.cpus) :
    (∀ t c, t ≤ TIER_BDEV_HIGH → c < st.cpus →
      (nova_update_sih_tier st sih tier false false).1.lists.getD (lruIdx st.cpus t c) [] =
        (if t = tier ∧ c = sih.ino % st.cpus then
          ((st.lists.getD (lruIdx st.cpus t c) []).erase sih.ino).concat sih.ino
        else if t ≤ tier ∧ c = sih.ino % st.cpus then
          (st.lists.getD (lruIdx st.cpus t c) []).erase sih.ino
        else st.lists.getD (lruIdx st.cpus t c) [])) ∧
    (nova_update_sih_tier st sih tier false false).2.ltier =
      (if sih.ltier < tier then tier else sih.ltier) ∧
    (nova_update_sih_tier st sih tier false false).2.htier =
      (if sih.htier < (if sih.ltier < tier then tier else sih.ltier)
       then (if sih.ltier < tier then tier else sih.ltier) else sih.htier) := by
  have hmod : sih.ino % st.cpus < st.cpus := Nat.mod_lt _ hcpus
  refine ⟨?_, ?_, ?_⟩
  · intro t c ht' hc
    have hidx : lruIdx st.cpus tier (sih.ino % st.cpus) < st.lists.length := by
      have hmul : (tier + 1) * st.cpus ≤ (TIER_BDEV_HIGH + 1) * st.cpus :=
        Nat.mul_le_mul_right _ (by omega)
      have hsucc : (tier + 1) * st.cpus = tier * st.cpus + st.cpus := by ring
      simp only [lruIdx]
      omega
    have hidx' : lruIdx st.cpus tier (sih.ino % st.cpus) <
        (lruRemoveUpTo sih tier st).lists.length := by
      rw [lruRemoveUpTo_length]; exact hidx
    show (lruAddTail (nova_remove_inode_lru_list st sih tier)
        (lruIdx st.cpus tier (sih.ino % st.cpus)) sih.ino).lists.getD
        (lruIdx st.cpus t c) [] = _
    rw [nova_remove_inode_lru_list, lruAddTail_getD _ _ _ _ hidx']
    by_cases heq : lruIdx st.cpus tier (sih.ino % st.cpus) = lruIdx st.cpus t c
    · obtain ⟨h1, h2⟩ := lruIdx_inj st.cpus tier (sih.ino % st.cpus) t c hmod hc heq
      rw [if_pos heq,
          lruRemoveUpTo_getD sih tier st t c hc ht' ht (by omega),
          if_pos (by omega), if_pos (by omega)]
    · have hne : ¬ (t = tier ∧ c = sih.ino % st.cpus) := by
        intro ⟨h1, h2⟩
        exact heq (by rw [h2]; congr 1; omega)
      rw [if_neg heq,
          lruRemoveUpTo_getD sih tier st t c hc ht' ht (by omega),
          if_neg hne]
  · rfl
  · rfl

theorem c9_update_tier_witness :
    (nova_update_sih_tier lruEx sihEx 1 false false).2.ltier =
      (if sihEx.ltier < 1 then 1 else sihEx.ltier) :=
  (c9_update_tier_removes_lower_lists lruEx sihEx 1 (by decide) (by decide) (by decide)).2.1

theorem claimWalkHead_le_sum (n : Nat) :
    ∀ (l : List RNode) (r : Nat × List RNode × Bool),
      claimWalkHead n l = some r → n ≤ (l.map nodeBlocks).sum := by
  intro l
  induction l with
  | nil => intro r h; simp [claimWalkHead] at h
  | cons curr rest ih =>
    intro r h
    simp only [claimWalkHead] at h
    by_cases h1 : curr.range_high - curr.range_low + 1 < n
    · rw [if_pos h1] at h
      obtain ⟨r', hr', _⟩ := Option.map_eq_some'.mp h
      have := ih r' hr'
      simp only [List.map_cons, List.sum_cons]
      omega
    · simp only [List.map_cons, List.sum_cons, nodeBlocks]
      omega

/-- The FROM_HEAD walk of the C allocator agrees with the walk described by
claim C5, for any decomposition `tree = pre ++ l` in which the skipped prefix
`pre` has already been passed, provided the remaining nodes have valid
checksums and node ids are globally distinct. -/
theorem allocWalkHead_eq_claim (n : Nat) :
    ∀ (l pre : List RNode),
      (∀ nd ∈ l, nova_range_node_checksum_ok nd = true) →
      ((pre ++ l).map (fun nd => nd.id)).Nodup →
      allocWalkHead n ((pre ++ l).head?.map (fun nd => nd.id))
          ((pre ++ l).getLast?.map (fun nd => nd.id))
          (pre.getLast?.map (fun nd => nd.id)) l
        = (claimWalkHead n l).map (fun r =>
            { blocknr := r.1
              tree := r.2.1
              first := (pre ++ r.2.1).head?.map (fun nd => nd.id)
              last := (pre ++ r.2.1).getLast?.map (fun nd => nd.id)
              erased := r.2.2 }) := by
  intro l
  induction l with
  | nil => intro pre _ _; simp [allocWalkHead, claimWalkHead]
  | cons curr rest ih =>
    intro pre hC hN
    have hcsum : nova_range_node_checksum_ok curr = true :=
      hC curr (List.mem_cons_self _ _)
    have hmapN : ((pre.map (fun nd => nd.id)) ++
        ((curr :: rest).map (fun nd => nd.id))).Nodup := by
      rw [← List.map_append]; exact hN
    have hconsN : ((curr :: rest).map (fun nd => nd.id)).Nodup :=
      hmapN.of_append_right
    have hid : curr.id ∉ rest.map (fun nd => nd.id) := by
      simp only [List.map_cons, List.nodup_cons] at hconsN
      exact hconsN.1
    simp only [allocWalkHead, claimWalkHead, hcsum]
    rw [if_neg (show ¬ (true = false) by simp)]
    rcases Nat.lt_trichotomy (curr.range_high - curr.range_low + 1) n with hlt | heq | hgt
    · -- skip: the node is smaller than the request
      rw [if_pos (Nat.le_of_lt hlt), if_pos hlt, if_pos hlt]
      have hN' : (((pre ++ [curr]) ++ rest).map (fun nd => nd.id)).Nodup := by
        have : (pre ++ [curr]) ++ rest = pre ++ curr :: rest := by simp
        rw [this]; exact hN
      have hC' : ∀ nd ∈ rest, nova_range_node_checksum_ok nd = true :=
        fun nd hnd => hC nd (List.mem_cons_of_mem _ hnd)
      have hhd : (pre ++ curr :: rest).head? = ((pre ++ [curr]) ++ rest).head? := by simp
      have hlst : (pre ++ curr :: rest).getLast? = ((pre ++ [curr]) ++ rest).getLast? := by
        simp
      have hprev : some curr.id = ((pre ++ [curr]).getLast?.map (fun nd => nd.id)) := by
        rw [List.getLast?_concat]; rfl
      rw [hhd, hlst, hprev, ih (pre ++ [curr]) hC' hN']
      cases hcr : claimWalkHead n rest with
      | none => rfl
      | some r =>
        simp only [Option.map_some', Option.some.injEq, AllocFound.mk.injEq]
        have hA : (pre ++ [curr]) ++ r.2.1 = pre ++ curr :: r.2.1 := by simp
        rw [hA]
        simp
    · -- exact fit: the whole node is erased
      have e1 : ¬ (curr.range_high - curr.range_low + 1 < n) := by omega
      rw [if_pos (Nat.le_of_eq heq), if_neg e1, if_neg e1, if_pos heq]
      simp only [Option.map_some', Option.some.injEq, AllocFound.mk.injEq,
        true_and, and_true]
      refine ⟨?_, ?_⟩
      · -- the cached first node moves to the in-order successor
        cases pre with
        | nil => simp
        | cons p ps =>
          have hpid : p.id ≠ curr.id := by
            have h1 := hN
            simp only [List.cons_append, List.map_cons, List.nodup_cons] at h1
            intro hcontra
            exact h1.1 (by
              rw [hcontra]
              exact List.mem_map_of_mem _ (by simp))
          simp only [List.cons_append, List.head?_cons, Option.map_some']
          rw [if_neg (by simp [hpid])]
      · -- the cached last node moves to the in-order predecessor
        cases rest with
        | nil =>
          rw [List.getLast?_concat]
          simp
        | cons r0 rs =>
          have hne : (r0 :: rs) ≠ ([] : List RNode) := by simp
          have hL1 : (pre ++ curr :: r0 :: rs).getLast? = (r0 :: rs).getLast? := by
            rw [List.getLast?_append_of_ne_nil _ (by simp)]
            exact List.getLast?_append_of_ne_nil [curr] hne
          have hL2 : (pre ++ r0 :: rs).getLast? = (r0 :: rs).getLast? :=
            List.getLast?_append_of_ne_nil _ hne
          rw [hL1, hL2, List.getLast?_eq_getLast_of_ne_nil hne]
          have hlastmem : (r0 :: rs).getLast hne ∈ (r0 :: rs) := List.getLast_mem _
          have hlid : ((r0 :: rs).getLast hne).id ≠ curr.id := by
            intro hcontra
            exact hid (by
              rw [← hcontra]
              exact List.mem_map_of_mem _ hlastmem)
          simp only [Option.map_some']
          rw [if_neg (by simp [hlid])]
    · -- slice: the node is larger than the request
      have e1 : ¬ (curr.range_high - curr.range_low + 1 ≤ n) := by omega
      have e2 : ¬ (curr.range_high - curr.range_low + 1 < n) := by omega
      have e3 : ¬ (curr.range_high - curr.range_low + 1 = n) := by omega
      rw [if_neg e1, if_neg e2, if_neg e3]
      simp only [Option.map_some', Option.some.injEq, AllocFound.mk.injEq,
        true_and, and_true]
      refine ⟨?_, ?_⟩
      · cases pre with
        | nil => simp [nova_update_range_node_checksum]
        | cons p ps => simp
      · cases rest with
        | nil =>
          rw [List.getLast?_concat, List.getLast?_concat]
          simp [nova_update_range_node_checksum]
        | cons r0 rs =>
          have hne : (r0 :: rs) ≠ ([] : List RNode) := by simp
          have hL1 : (pre ++ curr :: r0 :: rs).getLast? = (r0 :: rs).getLast? := by
            rw [List.getLast?_append_of_ne_nil _ (by simp)]
            exact List.getLast?_append_of_ne_nil [curr] hne
          have hL2 : (pre ++ nova_update_range_node_checksum
              { curr with range_low := curr.range_low + n } :: r0 :: rs).getLast?
              = (r0 :: rs).getLast? := by
            rw [List.getLast?_append_of_ne_nil _ (by simp)]
            exact List.getLast?_append_of_ne_nil
              [nova_update_range_node_checksum { curr with range_low := curr.range_low + n }] hne
          rw [hL1, hL2]

/-- C5: under the well-formedness the C sources maintain (valid checksums,
distinct node ids, cached extreme nodes, free counter equal to the tree
total), the FROM_HEAD allocation of `nova_alloc_blocks_in_bdev_free_list`
computes exactly the walk stated by the claim: skip every node of size
`s < n`; at the first node with `s = n` erase it (re-caching
first/last to the neighbours) and hand out its low bound; at the first node
with `s > n` hand out its low bound and advance its low by `n`; and when no
single node has size `≥ n`, fail with OUT_OF_SPACE even when
`num_free_blocks ≥ n`. -/
theorem c5_alloc_from_head_matches_spec (bfl : BdevFreeList) (n : Nat)
    (h : wfBfl bfl = true) :
    nova_alloc_blocks_in_bdev_free_list bfl n .head = allocHeadSpec bfl n := by
  have h' := h
  simp only [wfBfl, Bool.and_eq_true, beq_iff_eq, decide_eq_true_eq,
    List.all_eq_true] at h'
  obtain ⟨⟨⟨⟨⟨hlow, hcsum⟩, hnodup⟩, hfirst⟩, hlast⟩, hfree⟩ := h'
  cases htree : bfl.tree with
  | nil =>
    have hf : bfl.first_node = none := by rw [hfirst, htree]; rfl
    simp [nova_alloc_blocks_in_bdev_free_list, allocHeadSpec, claimWalkHead, hf, htree]
  | cons h0 t0 =>
    have hf : bfl.first_node = some h0.id := by rw [hfirst, htree]; rfl
    have hfree' : bfl.num_free_blocks = ((h0 :: t0).map nodeBlocks).sum := by
      rw [hfree, htree]
    have hfree0 : bfl.num_free_blocks ≠ 0 := by
      rw [hfree']
      simp only [List.map_cons, List.sum_cons, nodeBlocks]
      omega
    have hsplit : bfl.tree.findIdx? (fun nd => nd.id == h0.id) = some 0 := by
      rw [htree]
      simp [List.findIdx?_cons]
    have hwalk := allocWalkHead_eq_claim n bfl.tree []
      (fun nd hnd => by
        have := hcsum nd hnd
        simpa using this)
      (by simpa using hnodup)
    simp only [List.nil_append, List.getLast?_nil, Option.map_none'] at hwalk
    have hC : ∀ r, claimWalkHead n bfl.tree = some r → ¬ (bfl.num_free_blocks < n) := by
      intro r hcr
      have := claimWalkHead_le_sum n bfl.tree r hcr
      rw [hfree]
      omega
    unfold nova_alloc_blocks_in_bdev_free_list
    rw [if_neg (by
      intro hor
      rcases hor with h1 | h1
      · rw [hf] at h1; exact Option.noConfusion h1
      · exact hfree0 h1)]
    simp only [splitAtId, hf, hsplit]
    rw [← hf]
    simp only [List.take_zero, List.drop_zero, List.getLast?_nil, Option.map_none']
    rw [hfirst, hlast, hwalk]
    cases hcr : claimWalkHead n bfl.tree with
    | none =>
      simp only [Option.map_none']
      rw [allocHeadSpec, hcr]
    | some r =>
      simp only [Option.map_some', List.nil_append]
      rw [allocHeadSpec, hcr]
      rw [if_neg (hC r hcr)]

theorem c5_alloc_from_head_witness :
    wfBfl bflFrag = true ∧
    nova_alloc_blocks_in_bdev_free_list bflFrag 4 .head = allocHeadSpec bflFrag 4 :=
  ⟨by decide, c5_alloc_from_head_matches_spec bflFrag 4 (by decide)⟩

theorem treeSepSorted_tail (x : RNode) (l : List RNode)
    (h : treeSepSorted (x :: l)) : treeSepSorted l :=
  ⟨fun nd hnd => h.1 nd (List.mem_cons_of_mem _ hnd), h.2.tail⟩

theorem sep_head_lt :
    ∀ (l : List RNode) (x : RNode), treeSepSorted (x :: l) →
      ∀ b ∈ l, x.range_high + 1 < b.range_low := by
  intro l
  induction l with
  | nil => intro x _ b hb; simp at hb
  | cons y l ih =>
    intro x h b hb
    have hxy : x.range_high + 1 < y.range_low := (List.chain'_cons.mp h.2).1
    rcases List.mem_cons.mp hb with rfl | hb
    · exact hxy
    · have hsepyl : treeSepSorted (y :: l) := treeSepSorted_tail x _ h
      have hyb := ih y hsepyl b hb
      have hylow : y.range_low ≤ y.range_high := hsepyl.1 y (by simp)
      omega

theorem sepPairwise (l : List RNode) (h : treeSepSorted l) :
    l.Pairwise (fun a b => a.range_high + 1 < b.range_low) := by
  induction l with
  | nil => exact List.Pairwise.nil
  | cons x l ih =>
    exact List.pairwise_cons.mpr ⟨sep_head_lt l x h, ih (treeSepSorted_tail x l h)⟩

/-- Sufficient condition for separation of `left ++ mid :: right`. -/
theorem sep_mid (left right : List RNode) (mid : RNode)
    (hsepL : treeSepSorted left) (hsepR : treeSepSorted right)
    (hmid : mid.range_low ≤ mid.range_high)
    (hlink1 : ∀ a, left.getLast? = some a → a.range_high + 1 < mid.range_low)
    (hlink2 : ∀ b, right.head? = some b → mid.range_high + 1 < b.range_low) :
    treeSepSorted (left ++ mid :: right) := by
  refine ⟨?_, ?_⟩
  · intro nd hnd
    rcases List.mem_append.mp hnd with hL | hM
    · exact hsepL.1 nd hL
    · rcases List.mem_cons.mp hM with rfl | hR
      · exact hmid
      · exact hsepR.1 nd hR
  · rw [List.chain'_append]
    refine ⟨hsepL.2, ?_, ?_⟩
    · rw [List.chain'_cons']
      exact ⟨fun b hb => hlink2 b hb, hsepR.2⟩
    · intro a ha b hb
      simp only [List.head?_cons, Option.mem_def, Option.some.injEq] at hb
      subst hb
      exact hlink1 a ha

/-- In a separated tree, a node left-adjacent to the freed range is exactly
the last node of the below-`lo` prefix. -/
theorem adj_getLast (tree : List RNode) (lo hi : Nat) (p0 : RNode)
    (hsep : treeSepSorted tree)
    (hdisj : ∀ nd ∈ tree, nd.range_high < lo ∨ hi < nd.range_low)
    (hlohi : lo ≤ hi)
    (hp0 : p0 ∈ tree) (hadj : p0.range_high + 1 = lo) :
    (tree.takeWhile (fun nd => nd.range_high < lo)).getLast? = some p0 := by
  have hsplit : tree.takeWhile (fun nd => nd.range_high < lo) ++
      tree.dropWhile (fun nd => nd.range_high < lo) = tree :=
    List.takeWhile_append_dropWhile _ _
  have hpw := sepPairwise tree hsep
  have hp0tree := hp0
  rw [← hsplit] at hpw hp0
  obtain ⟨hpwL, hpwR, hLR⟩ := List.pairwise_append.mp hpw
  have hleftmem : ∀ nd ∈ tree.takeWhile (fun nd => nd.range_high < lo),
      nd.range_high < lo := by
    intro nd hnd
    have := List.mem_takeWhile_imp hnd
    simpa using this
  have hlow : ∀ nd ∈ tree, nd.range_low ≤ nd.range_high := hsep.1
  rcases List.mem_append.mp hp0 with hL | hR
  · -- p0 is in the prefix; show it is its last element
    have hne : tree.takeWhile (fun nd => nd.range_high < lo) ≠ [] := by
      intro hcontra; rw [hcontra] at hL; simp at hL
    set left := tree.takeWhile (fun nd => nd.range_high < lo) with hleftdef
    have hdl : left.dropLast ++ [left.getLast hne] = left :=
      List.dropLast_append_getLast hne
    rw [List.getLast?_eq_getLast_of_ne_nil hne]
    rcases List.mem_append.mp (by rw [hdl]; exact hL) with hdlmem | hlast
    · -- p0 strictly before the last prefix node: contradiction
      exfalso
      have hpwL' := hpwL
      rw [← hdl] at hpwL'
      obtain ⟨_, _, hrel⟩ := List.pairwise_append.mp hpwL'
      have h1 : p0.range_high + 1 < (left.getLast hne).range_low :=
        hrel p0 hdlmem (left.getLast hne) (by simp)
      have h2 : (left.getLast hne).range_high < lo :=
        hleftmem _ (List.getLast_mem hne)
      have h3 : (left.getLast hne).range_low ≤ (left.getLast hne).range_high := by
        apply hlow
        rw [← hsplit]
        exact List.mem_append_left _ (List.getLast_mem hne)
      omega
    · simp only [List.mem_singleton] at hlast
      rw [hlast]
  · -- p0 cannot be in the suffix
    exfalso
    cases hRstruct : tree.dropWhile (fun nd => nd.range_high < lo) with
    | nil => rw [hRstruct] at hR; simp at hR
    | cons s r1 =>
      have hs : ¬ (s.range_high < lo) := by
        have := List.head?_dropWhile_not (fun nd => decide (nd.range_high < lo)) tree
        rw [hRstruct] at this
        simpa using this
      have hshi : hi < s.range_low := by
        rcases hdisj s (by
          rw [← hsplit, hRstruct]
          exact List.mem_append_right _ (by simp)) with h1 | h1
        · omega
        · exact h1
      rw [hRstruct] at hR hpwR
      rcases List.mem_cons.mp hR with rfl | hr1
      · have := hlow p0 hp0tree
        omega
      · have hrel : s.range_high + 1 < p0.range_low :=
          (List.pairwise_cons.mp hpwR).1 p0 hr1
        have hslow : s.range_low ≤ s.range_high := by
          apply hlow
          rw [← hsplit, hRstruct]
          exact List.mem_append_right _ (by simp)
        have hplow : p0.range_low ≤ p0.range_high := hlow p0 hp0tree
        omega

/-- In a separated tree, a node right-adjacent to the freed range is exactly
the first node of the suffix. -/
theorem adj_head (tree : List RNode) (lo hi : Nat) (s0 : RNode)
    (hsep : treeSepSorted tree)
    (hdisj : ∀ nd ∈ tree, nd.range_high < lo ∨ hi < nd.range_low)
    (hlohi : lo ≤ hi)
    (hs0 : s0 ∈ tree) (hadj : hi + 1 = s0.range_low) :
    (tree.dropWhile (fun nd => nd.range_high < lo)).head? = some s0 := by
  have hsplit : tree.takeWhile (fun nd => nd.range_high < lo) ++
      tree.dropWhile (fun nd => nd.range_high < lo) = tree :=
    List.takeWhile_append_dropWhile _ _
  have hpw := sepPairwise tree hsep
  rw [← hsplit] at hpw
  obtain ⟨hpwL, hpwR, hLR⟩ := List.pairwise_append.mp hpw
  have hlow : ∀ nd ∈ tree, nd.range_low ≤ nd.range_high := hsep.1
  have hs0' := hs0
  rw [← hsplit] at hs0'
  rcases List.mem_append.mp hs0' with hL | hR
  · exfalso
    have h1 : s0.range_high < lo := by
      have := List.mem_takeWhile_imp hL
      simpa using this
    have h2 : s0.range_low ≤ s0.range_high := hlow s0 hs0
    omega
  · cases hRstruct : tree.dropWhile (fun nd => nd.range_high < lo) with
    | nil => rw [hRstruct] at hR; simp at hR
    | cons s r1 =>
      rw [hRstruct] at hR hpwR
      rcases List.mem_cons.mp hR with rfl | hr1
      · rfl
      · exfalso
        have hs : ¬ (s.range_high < lo) := by
          have := List.head?_dropWhile_not (fun nd => decide (nd.range_high < lo)) tree
          rw [hRstruct] at this
          simpa using this
        have hshi : hi < s.range_low := by
          rcases hdisj s (by
            rw [← hsplit, hRstruct]
            exact List.mem_append_right _ (by simp)) with h1 | h1
          · omega
          · exact h1
        have hrel : s.range_high + 1 < s0.range_low :=
          (List.pairwise_cons.mp hpwR).1 s0 hr1
        have hslow : s.range_low ≤ s.range_high := by
          apply hlow
          rw [← hsplit, hRstruct]
          exact List.mem_append_right _ (by simp)
        omega

theorem sep_append_left (xs ys : List RNode) (h : treeSepSorted (xs ++ ys)) :
    treeSepSorted xs :=
  ⟨fun nd hnd => h.1 nd (List.mem_append_left _ hnd), (List.chain'_append.mp h.2).1⟩

theorem sep_append_right (xs ys : List RNode) (h : treeSepSorted (xs ++ ys)) :
    treeSepSorted ys :=
  ⟨fun nd hnd => h.1 nd (List.mem_append_right _ hnd), (List.chain'_append.mp h.2).2.1⟩

theorem getLast?_some_decomp (l : List RNode) (p : RNode) (h : l.getLast? = some p) :
    l.dropLast ++ [p] = l ∧ p ∈ l := by
  obtain ⟨hne, hpe⟩ := List.mem_getLast?_eq_getLast (Option.mem_def.mpr h)
  constructor
  · rw [hpe]; exact List.dropLast_append_getLast hne
  · rw [hpe]; exact List.getLast_mem hne

theorem head?_some_decomp (l : List RNode) (s : RNode) (h : l.head? = some s) :
    l = s :: l.tail := by
  cases l with
  | nil => simp at h
  | cons a t =>
    simp only [List.head?_cons, Option.some.injEq] at h
    rw [h]; rfl

theorem sep_dropLast_link (l : List RNode) (p : RNode) (hsep : treeSepSorted l)
    (h : l.getLast? = some p) :
    treeSepSorted l.dropLast ∧
    (∀ a, l.dropLast.getLast? = some a → a.range_high + 1 < p.range_low) := by
  obtain ⟨hdl, _⟩ := getLast?_some_decomp l p h
  constructor
  · exact sep_append_left _ _ (by rw [hdl]; exact hsep)
  · intro a ha
    have hchain : List.Chain' (fun a b => a.range_high + 1 < b.range_low)
        (l.dropLast ++ [p]) := by rw [hdl]; exact hsep.2
    have := (List.chain'_append.mp hchain).2.2 a (Option.mem_def.mpr ha) p (by simp)
    exact this

theorem sep_cons_link (s : RNode) (r1 : List RNode) (h : treeSepSorted (s :: r1)) :
    ∀ b, r1.head? = some b → s.range_high + 1 < b.range_low := by
  intro b hb
  exact (List.chain'_cons'.mp h.2).1 b (Option.mem_def.mpr hb)

/-- Characterization of the spec-modelled `nova_find_free_slot` on a
non-conflicting range: it splits the tree at `lo`. -/
theorem find_free_slot_eq (tree : List RNode) (lo hi : Nat)
    (hdisj2 : ∀ x, (tree.dropWhile (fun nd => nd.range_high < lo)).head? = some x →
      hi < x.range_low) :
    nova_find_free_slot tree lo hi =
      some (tree.takeWhile (fun nd => nd.range_high < lo),
            tree.dropWhile (fun nd => nd.range_high < lo)) := by
  unfold nova_find_free_slot
  cases hx : (tree.dropWhile (fun nd => nd.range_high < lo)).head? with
  | none => simp only [hx]
  | some x =>
    simp only [hx]
    rw [if_neg (by have := hdisj2 x hx; omega)]

set_option maxHeartbeats 1000000

/-- Separation preservation and hole-filling of the coalescing core. -/
theorem free_core_sep (bfl : BdevFreeList) (nid lo hi num : Nat)
    (hn : 0 < num) (hhieq : hi = lo + num - 1)
    (hsep : treeSepSorted bfl.tree)
    (hdisj : ∀ nd ∈ bfl.tree, nd.range_high < lo ∨ hi < nd.range_low) :
    (nova_free_blocks_core bfl nid lo hi num).1 = 0 ∧
    treeSepSorted (nova_free_blocks_core bfl nid lo hi num).2.tree ∧
    (∀ p0 s0 : RNode, p0 ∈ bfl.tree → s0 ∈ bfl.tree →
      p0.range_high + 1 = lo → hi + 1 = s0.range_low →
      (nova_free_blocks_core bfl nid lo hi num).2.tree.length + 1 = bfl.tree.length ∧
      nova_update_range_node_checksum { p0 with range_high := s0.range_high } ∈
        (nova_free_blocks_core bfl nid lo hi num).2.tree) := by
  have hlohi : lo ≤ hi := by omega
  have hlowAll : ∀ nd ∈ bfl.tree, nd.range_low ≤ nd.range_high := hsep.1
  have hsplitEq : (bfl.tree.takeWhile (fun nd => nd.range_high < lo)) ++ (bfl.tree.dropWhile (fun nd => nd.range_high < lo)) = bfl.tree :=
    List.takeWhile_append_dropWhile _ _
  have hsepLR : treeSepSorted ((bfl.tree.takeWhile (fun nd => nd.range_high < lo)) ++ (bfl.tree.dropWhile (fun nd => nd.range_high < lo))) := by
    rw [hsplitEq]; exact hsep
  have hsepL := sep_append_left _ _ hsepLR
  have hsepR := sep_append_right _ _ hsepLR
  have hLP : ∀ nd ∈ (bfl.tree.takeWhile (fun nd => nd.range_high < lo)), nd.range_high < lo := by
    intro nd hnd
    have := List.mem_takeWhile_imp hnd
    simpa using this
  have hRsub : ∀ x ∈ (bfl.tree.dropWhile (fun nd => nd.range_high < lo)), x ∈ bfl.tree := by
    intro x hx
    have hx2 : x ∈ (bfl.tree.takeWhile (fun nd => nd.range_high < lo)) ++ (bfl.tree.dropWhile (fun nd => nd.range_high < lo)) := List.mem_append_right _ hx
    rw [hsplitEq] at hx2
    exact hx2
  have hRheadlow : ∀ x, (bfl.tree.dropWhile (fun nd => nd.range_high < lo)).head? = some x → hi < x.range_low := by
    intro x hx
    have h1 : ¬ (x.range_high < lo) := by
      have := List.head?_dropWhile_not (fun nd => decide (nd.range_high < lo)) bfl.tree
      rw [hx] at this
      simpa using this
    have hxmem : x ∈ bfl.tree := by
      apply hRsub
      rw [head?_some_decomp _ x hx]
      simp
    rcases hdisj x hxmem with h2 | h2
    · omega
    · exact h2
  have hslot := find_free_slot_eq bfl.tree lo hi hRheadlow
  have hlenL3 : bfl.tree.length = (bfl.tree.takeWhile (fun nd => nd.range_high < lo)).length + (bfl.tree.dropWhile (fun nd => nd.range_high < lo)).length := by
    rw [← List.length_append, hsplitEq]
  rcases hLs : (bfl.tree.takeWhile (fun nd => nd.range_high < lo)).getLast? with _ | p
  · rcases hRs : (bfl.tree.dropWhile (fun nd => nd.range_high < lo)).head? with _ | s
    · -- no predecessor, no successor: fresh node
      have hcore : nova_free_blocks_core bfl nid lo hi num =
          (0, { bfl with
            tree := (bfl.tree.takeWhile (fun nd => nd.range_high < lo)) ++ nova_update_range_node_checksum { id := nid, range_low := lo, range_high := hi, csum := 0 } :: (bfl.tree.dropWhile (fun nd => nd.range_high < lo)),
            num_blocknode := bfl.num_blocknode + 1,
            first_node := some nid,
            last_node := some nid,
            num_free_blocks := bfl.num_free_blocks + num
            }) := by
        simp only [nova_free_blocks_core, hslot, hLs, hRs]
      rw [hcore]
      refine ⟨rfl, ?_, ?_⟩
      · exact sep_mid _ _ _ hsepL hsepR
          (by simp [nova_update_range_node_checksum]; omega)
          (fun a ha => by
            rw [hLs] at ha
            exact absurd ha (by simp))
          (fun b hb => by
            rw [hRs] at hb
            exact absurd hb (by simp))
      · intro p0 s0 hp0 hs0 hadjp hadjs
        exfalso
        have := adj_getLast bfl.tree lo hi p0 hsep hdisj hlohi hp0 hadjp
        rw [hLs] at this
        exact Option.noConfusion this
    · -- successor only
      have hRdec := head?_some_decomp _ s hRs
      have hsmem : s ∈ bfl.tree := hRsub s (by rw [hRdec]; simp)
      have hshi : hi < s.range_low := hRheadlow s hRs
      have hslow := hlowAll s hsmem
      have hsepRc : treeSepSorted (s :: (bfl.tree.dropWhile (fun nd => nd.range_high < lo)).tail) := by
        rw [← hRdec]; exact hsepR
      have hsepR1 := treeSepSorted_tail _ _ hsepRc
      have hlinkR1 := sep_cons_link s _ hsepRc
      by_cases hc3 : hi + 1 = s.range_low
      · -- aligns right
        have hcore : nova_free_blocks_core bfl nid lo hi num =
            (0, { bfl with
              tree := (bfl.tree.takeWhile (fun nd => nd.range_high < lo)) ++ nova_update_range_node_checksum { s with range_low := s.range_low - num } :: (bfl.tree.dropWhile (fun nd => nd.range_high < lo)).tail,
              num_free_blocks := bfl.num_free_blocks + num
              }) := by
          simp only [nova_free_blocks_core, hslot, hLs, hRs]
          rw [if_pos hc3]
        rw [hcore]
        refine ⟨rfl, ?_, ?_⟩
        · exact sep_mid _ _ _ hsepL hsepR1
            (by simp [nova_update_range_node_checksum]; omega)
            (fun a ha => by
              rw [hLs] at ha
              exact absurd ha (by simp))
            (fun b hb => by
              have := hlinkR1 b hb
              simp only [nova_update_range_node_checksum]
              omega)
        · intro p0 s0 hp0 hs0 hadjp hadjs
          exfalso
          have := adj_getLast bfl.tree lo hi p0 hsep hdisj hlohi hp0 hadjp
          rw [hLs] at this
          exact Option.noConfusion this
      · -- fresh node before the successor
        have hcore : nova_free_blocks_core bfl nid lo hi num =
            (0, { bfl with
              tree := (bfl.tree.takeWhile (fun nd => nd.range_high < lo)) ++ nova_update_range_node_checksum { id := nid, range_low := lo, range_high := hi, csum := 0 } :: (bfl.tree.dropWhile (fun nd => nd.range_high < lo)),
              num_blocknode := bfl.num_blocknode + 1,
              first_node := some nid,
              num_free_blocks := bfl.num_free_blocks + num
              }) := by
          simp only [nova_free_blocks_core, hslot, hLs, hRs]
          rw [if_neg hc3]
        rw [hcore]
        refine ⟨rfl, ?_, ?_⟩
        · exact sep_mid _ _ _ hsepL hsepR
            (by simp [nova_update_range_node_checksum]; omega)
            (fun a ha => by
              rw [hLs] at ha
              exact absurd ha (by simp))
            (fun b hb => by
              rw [hRs] at hb
              injection hb with hb
              subst hb
              simp only [nova_update_range_node_checksum]
              omega)
        · intro p0 s0 hp0 hs0 hadjp hadjs
          exfalso
          have := adj_getLast bfl.tree lo hi p0 hsep hdisj hlohi hp0 hadjp
          rw [hLs] at this
          exact Option.noConfusion this
  · -- predecessor exists
    have hpdec := getLast?_some_decomp _ p hLs
    have hpmem : p ∈ bfl.tree := by
      have hp2 : p ∈ (bfl.tree.takeWhile (fun nd => nd.range_high < lo)) ++ (bfl.tree.dropWhile (fun nd => nd.range_high < lo)) := List.mem_append_left _ hpdec.2
      rw [hsplitEq] at hp2
      exact hp2
    have hph : p.range_high < lo := hLP p hpdec.2
    have hplow := hlowAll p hpmem
    have hDL := sep_dropLast_link _ p hsepL hLs
    have hlenL1 : (bfl.tree.takeWhile (fun nd => nd.range_high < lo)).dropLast.length + 1 = (bfl.tree.takeWhile (fun nd => nd.range_high < lo)).length := by
      conv_rhs => rw [← hpdec.1]
      simp
    rcases hRs : (bfl.tree.dropWhile (fun nd => nd.range_high < lo)).head? with _ | s
    · -- predecessor only
      by_cases hc2 : lo = p.range_high + 1
      · -- aligns left
        have hcore : nova_free_blocks_core bfl nid lo hi num =
            (0, { bfl with
              tree := (bfl.tree.takeWhile (fun nd => nd.range_high < lo)).dropLast ++ nova_update_range_node_checksum { p with range_high := p.range_high + num } :: (bfl.tree.dropWhile (fun nd => nd.range_high < lo)),
              num_free_blocks := bfl.num_free_blocks + num
              }) := by
          simp only [nova_free_blocks_core, hslot, hLs, hRs]
          rw [if_pos hc2]
        rw [hcore]
        refine ⟨rfl, ?_, ?_⟩
        · exact sep_mid _ _ _ hDL.1 hsepR
            (by simp [nova_update_range_node_checksum]; omega)
            (fun a ha => by
              have := hDL.2 a ha
              simp only [nova_update_range_node_checksum]
              omega)
            (fun b hb => by
              rw [hRs] at hb
              exact absurd hb (by simp))
        · intro p0 s0 hp0 hs0 hadjp hadjs
          exfalso
          have := adj_head bfl.tree lo hi s0 hsep hdisj hlohi hs0 hadjs
          rw [hRs] at this
          exact Option.noConfusion this
      · -- fresh node after the predecessor
        have hcore : nova_free_blocks_core bfl nid lo hi num =
            (0, { bfl with
              tree := (bfl.tree.takeWhile (fun nd => nd.range_high < lo)) ++ nova_update_range_node_checksum { id := nid, range_low := lo, range_high := hi, csum := 0 } :: (bfl.tree.dropWhile (fun nd => nd.range_high < lo)),
              num_blocknode := bfl.num_blocknode + 1,
              last_node := some nid,
              num_free_blocks := bfl.num_free_blocks + num
              }) := by
          simp only [nova_free_blocks_core, hslot, hLs, hRs]
          rw [if_neg hc2]
        rw [hcore]
        refine ⟨rfl, ?_, ?_⟩
        · exact sep_mid _ _ _ hsepL hsepR
            (by simp [nova_update_range_node_checksum]; omega)
            (fun a ha => by
              rw [hLs] at ha
              injection ha with ha
              subst ha
              simp only [nova_update_range_node_checksum]
              omega)
            (fun b hb => by
              rw [hRs] at hb
              exact absurd hb (by simp))
        · intro p0 s0 hp0 hs0 hadjp hadjs
          exfalso
          have := adj_head bfl.tree lo hi s0 hsep hdisj hlohi hs0 hadjs
          rw [hRs] at this
          exact Option.noConfusion this
    · -- predecessor and successor both exist
      have hRdec := head?_some_decomp _ s hRs
      have hsmem : s ∈ bfl.tree := hRsub s (by rw [hRdec]; simp)
      have hshi : hi < s.range_low := hRheadlow s hRs
      have hslow := hlowAll s hsmem
      have hsepRc : treeSepSorted (s :: (bfl.tree.dropWhile (fun nd => nd.range_high < lo)).tail) := by
        rw [← hRdec]; exact hsepR
      have hsepR1 := treeSepSorted_tail _ _ hsepRc
      have hlinkR1 := sep_cons_link s _ hsepRc
      have hlenL2 : (bfl.tree.dropWhile (fun nd => nd.range_high < lo)).length = (bfl.tree.dropWhile (fun nd => nd.range_high < lo)).tail.length + 1 := by
        conv_lhs => rw [hRdec]
        simp
      by_cases hc1 : lo = p.range_high + 1 ∧ hi + 1 = s.range_low
      · -- the freed range exactly fills the hole
        have hcore : nova_free_blocks_core bfl nid lo hi num =
            (0, { bfl with
              tree := (bfl.tree.takeWhile (fun nd => nd.range_high < lo)).dropLast ++ nova_update_range_node_checksum { p with range_high := s.range_high } :: (bfl.tree.dropWhile (fun nd => nd.range_high < lo)).tail,
              num_blocknode := bfl.num_blocknode - 1,
              last_node := if bfl.last_node = some s.id then some p.id else bfl.last_node,
              num_free_blocks := bfl.num_free_blocks + num
              }) := by
          simp only [nova_free_blocks_core, hslot, hLs, hRs]
          rw [if_pos hc1]
        rw [hcore]
        refine ⟨rfl, ?_, ?_⟩
        · exact sep_mid _ _ _ hDL.1 hsepR1
            (by simp [nova_update_range_node_checksum]; omega)
            (fun a ha => by
              have := hDL.2 a ha
              simp only [nova_update_range_node_checksum]
              omega)
            (fun b hb => by
              have := hlinkR1 b hb
              simp only [nova_update_range_node_checksum]
              omega)
        · intro p0 s0 hp0 hs0 hadjp hadjs
          have hps : p0 = p := by
            have h := adj_getLast bfl.tree lo hi p0 hsep hdisj hlohi hp0 hadjp
            rw [hLs] at h
            injection h with h
            exact h.symm
          have hss : s0 = s := by
            have h := adj_head bfl.tree lo hi s0 hsep hdisj hlohi hs0 hadjs
            rw [hRs] at h
            injection h with h
            exact h.symm
          subst hps
          subst hss
          constructor
          · simp only [List.length_append, List.length_cons]
            omega
          · exact List.mem_append_right _ (List.mem_cons_self _ _)
      · by_cases hc2 : lo = p.range_high + 1
        · -- aligns left only
          have hns : ¬ (hi + 1 = s.range_low) := fun hcon => hc1 ⟨hc2, hcon⟩
          have hcore : nova_free_blocks_core bfl nid lo hi num =
              (0, { bfl with
                tree := (bfl.tree.takeWhile (fun nd => nd.range_high < lo)).dropLast ++ nova_update_range_node_checksum { p with range_high := p.range_high + num } :: (bfl.tree.dropWhile (fun nd => nd.range_high < lo)),
                num_free_blocks := bfl.num_free_blocks + num
                }) := by
            simp only [nova_free_blocks_core, hslot, hLs, hRs]
            rw [if_neg hc1, if_pos hc2]
          rw [hcore]
          refine ⟨rfl, ?_, ?_⟩
          · exact sep_mid _ _ _ hDL.1 hsepR
              (by simp [nova_update_range_node_checksum]; omega)
              (fun a ha => by
                have := hDL.2 a ha
                simp only [nova_update_range_node_checksum]
                omega)
              (fun b hb => by
                rw [hRs] at hb
                injection hb with hb
                subst hb
                simp only [nova_update_range_node_checksum]
                omega)
          · intro p0 s0 hp0 hs0 hadjp hadjs
            exfalso
            have hss : s0 = s := by
              have h := adj_head bfl.tree lo hi s0 hsep hdisj hlohi hs0 hadjs
              rw [hRs] at h
              injection h with h
              exact h.symm
            subst hss
            exact hc1 ⟨hc2, hadjs⟩
        · by_cases hc3 : hi + 1 = s.range_low
          · -- aligns right only
            have hcore : nova_free_blocks_core bfl nid lo hi num =
                (0, { bfl with
                  tree := (bfl.tree.takeWhile (fun nd => nd.range_high < lo)) ++ nova_update_range_node_checksum { s with range_low := s.range_low - num } :: (bfl.tree.dropWhile (fun nd => nd.range_high < lo)).tail,
                  num_free_blocks := bfl.num_free_blocks + num
                  }) := by
              simp only [nova_free_blocks_core, hslot, hLs, hRs]
              rw [if_neg hc1, if_neg hc2, if_pos hc3]
            rw [hcore]
            refine ⟨rfl, ?_, ?_⟩
            · exact sep_mid _ _ _ hsepL hsepR1
                (by simp [nova_update_range_node_checksum]; omega)
                (fun a ha => by
                  rw [hLs] at ha
                  injection ha with ha
                  subst ha
                  simp only [nova_update_range_node_checksum]
                  omega)
                (fun b hb => by
                  have := hlinkR1 b hb
                  simp only [nova_update_range_node_checksum]
                  omega)
            · intro p0 s0 hp0 hs0 hadjp hadjs
              exfalso
              have hps : p0 = p := by
                have h := adj_getLast bfl.tree lo hi p0 hsep hdisj hlohi hp0 hadjp
                rw [hLs] at h
                injection h with h
                exact h.symm
              subst hps
              omega
          · -- fresh node in the middle
            have hcore : nova_free_blocks_core bfl nid lo hi num =
                (0, { bfl with
                  tree := (bfl.tree.takeWhile (fun nd => nd.range_high < lo)) ++ nova_update_range_node_checksum { id := nid, range_low := lo, range_high := hi, csum := 0 } :: (bfl.tree.dropWhile (fun nd => nd.range_high < lo)),
                  num_blocknode := bfl.num_blocknode + 1,
                  num_free_blocks := bfl.num_free_blocks + num
                  }) := by
              simp only [nova_free_blocks_core, hslot, hLs, hRs]
              rw [if_neg hc1, if_neg hc2, if_neg hc3]
            rw [hcore]
            refine ⟨rfl, ?_, ?_⟩
            · exact sep_mid _ _ _ hsepL hsepR
                (by simp [nova_update_range_node_checksum]; omega)
                (fun a ha => by
                  rw [hLs] at ha
                  injection ha with ha
                  subst ha
                  simp only [nova_update_range_node_checksum]
                  omega)
                (fun b hb => by
                  rw [hRs] at hb
                  injection hb with hb
                  subst hb
                  simp only [nova_update_range_node_checksum]
                  omega)
            · intro p0 s0 hp0 hs0 hadjp hadjs
              exfalso
              have hps : p0 = p := by
                have h := adj_getLast bfl.tree lo hi p0 hsep hdisj hlohi hp0 hadjp
                rw [hLs] at h
                injection h with h
                exact h.symm
              subst hps
              omega
/-- C7: freeing a block run that conflicts with no free node returns 0 and
preserves the separation invariant of the owning shard's tree (any two
consecutive nodes a, b satisfy `a.high + 1 < b.low`); and when the freed
range exactly fills the hole between a left-adjacent node p and a
right-adjacent node s, the two nodes are replaced by the single coalesced
node `[p.low, s.high]` (the tree shrinks by one node). -/
theorem c7_free_preserves_separation (sbi : Sbi) (blocknr num_blocks index : Nat)
    (hn : 0 < num_blocks)
    (hidx : get_bfl_index sbi blocknr = some index)
    (hlen : index < sbi.bdev_free_list.length)
    (hwf : treeSepSorted (nova_get_bdev_free_list_flat sbi index).tree)
    (hlo : (nova_get_bdev_free_list_flat sbi index).block_start ≤ blocknr)
    (hhi : blocknr + num_blocks ≤ (nova_get_bdev_free_list_flat sbi index).block_end + 1)
    (hdisj : ∀ nd ∈ (nova_get_bdev_free_list_flat sbi index).tree,
      nd.range_high < blocknr ∨ blocknr + num_blocks - 1 < nd.range_low) :
    (nova_free_blocks_from_bdev sbi blocknr num_blocks).1 = 0 ∧
    treeSepSorted (nova_get_bdev_free_list_flat
      (nova_free_blocks_from_bdev sbi blocknr num_blocks).2 index).tree ∧
    (∀ p s : RNode, p ∈ (nova_get_bdev_free_list_flat sbi index).tree →
      s ∈ (nova_get_bdev_free_list_flat sbi index).tree →
      p.range_high + 1 = blocknr → blocknr + num_blocks = s.range_low →
      (nova_get_bdev_free_list_flat
          (nova_free_blocks_from_bdev sbi blocknr num_blocks).2 index).tree.length + 1 =
        (nova_get_bdev_free_list_flat sbi index).tree.length ∧
      nova_update_range_node_checksum { p with range_high := s.range_high } ∈
        (nova_get_bdev_free_list_flat
          (nova_free_blocks_from_bdev sbi blocknr num_blocks).2 index).tree) := by
  have hcore := free_core_sep (nova_get_bdev_free_list_flat sbi index)
    sbi.next_node_id blocknr (blocknr + num_blocks - 1) num_blocks hn (by omega)
    hwf hdisj
  have hidx1 : get_bfl_index { sbi with next_node_id := sbi.next_node_id + 1 } blocknr
      = some index := hidx
  have hflat : nova_get_bdev_free_list_flat
      { sbi with next_node_id := sbi.next_node_id + 1 } index
      = nova_get_bdev_free_list_flat sbi index := rfl
  have hrun : nova_free_blocks_from_bdev sbi blocknr num_blocks =
      ((nova_free_blocks_core (nova_get_bdev_free_list_flat sbi index)
          sbi.next_node_id blocknr (blocknr + num_blocks - 1) num_blocks).1,
       setBdevFreeList { sbi with next_node_id := sbi.next_node_id + 1 } index
         (nova_free_blocks_core (nova_get_bdev_free_list_flat sbi index)
            sbi.next_node_id blocknr (blocknr + num_blocks - 1) num_blocks).2) := by
    simp only [nova_free_blocks_from_bdev, hidx1, hflat]
    rw [if_neg (by omega), if_neg (by omega)]
  have hflatset : ∀ b, nova_get_bdev_free_list_flat
      (setBdevFreeList { sbi with next_node_id := sbi.next_node_id + 1 } index b)
      index = b := by
    intro b
    simp [nova_get_bdev_free_list_flat, setBdevFreeList, List.getD,
      List.getElem?_set_self', hlen]
  rw [hrun]
  refine ⟨hcore.1, ?_, ?_⟩
  · rw [hflatset]
    exact hcore.2.1
  · intro p s hp hs hadjp hadjs
    have h3 := hcore.2.2 p s hp hs (by omega) (by omega)
    rw [hflatset]
    exact h3

theorem c7_free_witness :
    (nova_free_blocks_from_bdev sbiHole 150 10).1 = 0 ∧
    treeSepSorted (nova_get_bdev_free_list_flat
      (nova_free_blocks_from_bdev sbiHole 150 10).2 0).tree :=
  (fun h => ⟨h.1, h.2.1⟩)
    (c7_free_preserves_separation sbiHole 150 10 0 (by decide) (by decide)
      (by decide) ⟨by decide, by show List.Chain' _ bflHole.tree; simp [bflHole, List.chain'_cons]⟩ (by decide) (by decide)
      (by decide))

end Nova
